import Mathlib

/-!
Verification development for `verify_evidence.py` (0g-tapp-verifier).

The tool reads a local evidence record, POSTs it to an attestation service,
and decodes the returned three-segment JWT-like token.  This file gives a
shallow embedding of the script:

* text is `List Char` (Python `str`), raw bytes are `List Nat` (each < 256);
* the base64url decoding used by `decode_jwt` (lines 126-140 of the source)
  is modelled after CPython's `base64.urlsafe_b64decode` (non-strict
  `binascii.a2b_base64`) on its relevant input domain: alphabet characters
  followed by trailing `=` padding.  Interior padding followed by further
  data, characters outside the alphabet (which CPython silently discards),
  and non-ASCII UTF-8 payloads are modelled as decode failures; no theorem
  below exercises those corners;
* JSON is an explicit tree (`Json`), with `json.dumps` (default separators,
  `ensure_ascii=True`) and `json.loads` modelled executably (numbers are
  restricted to integers: JSON fractions/exponents, which Python would load
  as floats, are modelled as parse failures);
* the script's control flow (`verify_evidence`, `decode_jwt`) becomes total
  functions from explicit inputs (evidence-file state, environment strings,
  the one HTTP response) to an output record (exit code, whether the POST
  was reached, the two output files, printed diagnostics as `Msg` events).
-/

/-! ## Characters and small helpers -/

/-- The `\x7b` character (left curly brace). -/
def lbraceC : Char := Char.ofNat 123

/-- The `\x7d` character (right curly brace). -/
def rbraceC : Char := Char.ofNat 125

/-- The `"` character. -/
def quoteC : Char := Char.ofNat 34

/-- The `\` character. -/
def backslashC : Char := Char.ofNat 92

/-! ## base64url (CPython `base64.urlsafe_b64decode` / JWT segment padding)

`decode_jwt` pads each segment with `'=' * (4 - len % 4)` (source lines 127
and 138) and feeds it to `base64.urlsafe_b64decode`. -/

/-- The base64url alphabet: sextet value to character
(`A-Z`, `a-z`, `0-9`, `-`, `_`). -/
def sextetToChar (v : Nat) : Char :=
  if v < 26 then Char.ofNat (65 + v)
  else if v < 52 then Char.ofNat (97 + (v - 26))
  else if v < 62 then Char.ofNat (48 + (v - 52))
  else if v = 62 then Char.ofNat 45
  else Char.ofNat 95

/-- Inverse of the base64url alphabet: character to sextet value. -/
def charToSextet (c : Char) : Option Nat :=
  let n := c.toNat
  if 65 ≤ n ∧ n ≤ 90 then some (n - 65)
  else if 97 ≤ n ∧ n ≤ 122 then some (26 + (n - 97))
  else if 48 ≤ n ∧ n ≤ 57 then some (52 + (n - 48))
  else if n = 45 then some 62
  else if n = 95 then some 63
  else none

/-- Pack bytes into base64 sextets (3 bytes to 4 sextets; final groups of
1 or 2 bytes to 2 or 3 sextets, low bits zero). -/
def bytesToSextets : List Nat → List Nat
  | b1 :: b2 :: b3 :: rest =>
      (b1 / 4) :: ((b1 % 4) * 16 + b2 / 16) :: ((b2 % 16) * 4 + b3 / 64) ::
        (b3 % 64) :: bytesToSextets rest
  | [b1, b2] => [b1 / 4, (b1 % 4) * 16 + b2 / 16, (b2 % 16) * 4]
  | [b1] => [b1 / 4, (b1 % 4) * 16]
  | [] => []

/-- Unpack base64 sextets into bytes (inverse of `bytesToSextets`; a final
group of 3 sextets yields 2 bytes, of 2 sextets 1 byte; a lone trailing
sextet never reaches this function). -/
def sextetsToBytes : List Nat → List Nat
  | s1 :: s2 :: s3 :: s4 :: rest =>
      (s1 * 4 + s2 / 16) :: ((s2 % 16) * 16 + s3 / 4) :: ((s3 % 4) * 64 + s4) ::
        sextetsToBytes rest
  | [s1, s2, s3] => [s1 * 4 + s2 / 16, (s2 % 16) * 16 + s3 / 4]
  | [s1, s2] => [s1 * 4 + s2 / 16]
  | _ => []

/-- Map every character of a candidate base64url data run to its sextet
value; fails on any character outside the alphabet. -/
def charsToSextets : List Char → Option (List Nat)
  | [] => some []
  | c :: rest =>
      match charToSextet c, charsToSextets rest with
      | some v, some vs => some (v :: vs)
      | _, _ => none

/-- Unpadded base64url encoding of a byte string (the form in which JWT
segments arrive from the attestation service). -/
def b64urlEncode (bs : List Nat) : List Char :=
  (bytesToSextets bs).map sextetToChar

/-- Number of `=` characters the script appends to a segment:
`'=' * (4 - len(seg) % 4)` (source lines 127 and 138).  Note this is `4`,
not `0`, when the segment length is already a multiple of 4. -/
def padLen (seg : List Char) : Nat := 4 - seg.length % 4

/-- The padded segment handed to `base64.urlsafe_b64decode`
(source lines 126-128 and 137-139). -/
def jwtPad (seg : List Char) : List Char :=
  seg ++ List.replicate (padLen seg) '='

/-- CPython `base64.urlsafe_b64decode` on its domain of alphabet characters
followed by trailing `=` padding (non-strict `binascii.a2b_base64`):

* a final quad-position of 1 data character is an error;
* 2 (resp. 3) trailing data characters decode to 1 (resp. 2) bytes provided
  at least 2 (resp. 1) pad characters follow;
* pad characters at a quad boundary are ignored, so excess padding after an
  aligned run is tolerated.

Inputs outside this domain (interior `=` followed by data, characters
outside the alphabet) are modelled as failures. -/
def b64decodePadded (s : List Char) : Option (List Nat) :=
  let data := s.takeWhile (fun c => c ≠ '=')
  let pads := s.dropWhile (fun c => c ≠ '=')
  if pads.all (fun c => c = '=') then
    match charsToSextets data with
    | none => none
    | some sx =>
        if sx.length % 4 = 0 then some (sextetsToBytes sx)
        else if sx.length % 4 = 2 then
          if 2 ≤ pads.length then some (sextetsToBytes sx) else none
        else if sx.length % 4 = 3 then
          if 1 ≤ pads.length then some (sextetsToBytes sx) else none
        else none
  else none

/-! ## JSON values

Python JSON restricted to: null, booleans, integers, strings, arrays,
objects.  Objects are ordered key/value lists (Python dicts preserve
insertion order); `json.loads` with duplicate keys keeps the last binding,
which `objLookup` mirrors. -/

mutual
inductive Json where
  | null : Json
  | bool (b : Bool) : Json
  | num (n : Int) : Json
  | str (s : List Char) : Json
  | arr (xs : JList) : Json
  | obj (kvs : JObj) : Json
deriving DecidableEq
inductive JList where
  | nil : JList
  | cons (hd : Json) (tl : JList) : JList
deriving DecidableEq
inductive JObj where
  | nil : JObj
  | cons (k : List Char) (v : Json) (tl : JObj) : JObj
deriving DecidableEq
end

/-- Python `dict` lookup on a JSON object: the *last* binding of a key wins
(matching `json.loads` duplicate-key behaviour). -/
def objLookup (k : List Char) : JObj → Option Json
  | .nil => none
  | .cons k' v tl =>
      match objLookup k tl with
      | some r => some r
      | none => if k' = k then some v else none

/-! ## `json.dumps` (default separators `", "`/`": "`, `ensure_ascii=True`) -/

/-- Lowercase hexadecimal digit for a value below 16. -/
def hexDigit (n : Nat) : Char :=
  if n < 10 then Char.ofNat (48 + n) else Char.ofNat (87 + n)

/-- Four lowercase hex digits of a value below 0x10000. -/
def hex4 (n : Nat) : List Char :=
  [hexDigit (n / 4096 % 16), hexDigit (n / 256 % 16),
    hexDigit (n / 16 % 16), hexDigit (n % 16)]

/-- Escape one character as CPython's `py_encode_basestring_ascii` does:
printable ASCII other than `"` and `\` stays; `\` `"` and the five control
shorthands get two-character escapes; everything else becomes `\uXXXX`,
with astral characters split into a UTF-16 surrogate pair. -/
def escChar (c : Char) : List Char :=
  if c = quoteC then [backslashC, quoteC]
  else if c = backslashC then [backslashC, backslashC]
  else if c = Char.ofNat 8 then [backslashC, 'b']
  else if c = Char.ofNat 9 then [backslashC, 't']
  else if c = Char.ofNat 10 then [backslashC, 'n']
  else if c = Char.ofNat 12 then [backslashC, 'f']
  else if c = Char.ofNat 13 then [backslashC, 'r']
  else if 32 ≤ c.toNat ∧ c.toNat ≤ 126 then [c]
  else if c.toNat < 65536 then backslashC :: 'u' :: hex4 c.toNat
  else
    backslashC :: 'u' :: hex4 (55296 + (c.toNat - 65536) / 1024) ++
      (backslashC :: 'u' :: hex4 (56320 + (c.toNat - 65536) % 1024))

/-- Escape a whole string body. -/
def escBody : List Char → List Char
  | [] => []
  | c :: rest => escChar c ++ escBody rest

/-- A JSON string literal: quote, escaped body, quote. -/
def quoteStr (s : List Char) : List Char :=
  quoteC :: escBody s ++ [quoteC]

/-- Decimal digit character. -/
def digitChar (n : Nat) : Char := Char.ofNat (48 + n)

/-- Decimal digits, fuel-indexed so the definition reduces in the kernel
(`natDigits` supplies fuel `n + 1`, always sufficient). -/
def natDigitsAux : Nat → Nat → List Char
  | 0, _ => []
  | fuel + 1, n =>
      if n < 10 then [digitChar n]
      else natDigitsAux fuel (n / 10) ++ [digitChar (n % 10)]

/-- Decimal digits of a natural number, most significant first. -/
def natDigits (n : Nat) : List Char := natDigitsAux (n + 1) n

/-- Python `str` of an integer. -/
def intToChars (i : Int) : List Char :=
  if i < 0 then '-' :: natDigits (-i).toNat else natDigits i.toNat

mutual
/-- `json.dumps` with the default separators (`", "` between items,
`": "` after keys) and `ensure_ascii=True`. -/
def dumpJson : Json → List Char
  | .null => 'n' :: 'u' :: 'l' :: ['l']
  | .bool true => 't' :: 'r' :: 'u' :: ['e']
  | .bool false => 'f' :: 'a' :: 'l' :: 's' :: ['e']
  | .num n => intToChars n
  | .str s => quoteStr s
  | .arr .nil => '[' :: [']']
  | .arr (.cons h t) => '[' :: (dumpElems (.cons h t) ++ [']'])
  | .obj .nil => lbraceC :: [rbraceC]
  | .obj (.cons k v t) => lbraceC :: (dumpMembers (.cons k v t) ++ [rbraceC])
termination_by structural j => j
/-- Comma-separated array elements (non-empty). -/
def dumpElems : JList → List Char
  | .nil => []
  | .cons h .nil => dumpJson h
  | .cons h (.cons h2 t) => dumpJson h ++ ',' :: ' ' :: dumpElems (.cons h2 t)
termination_by structural xs => xs
/-- Comma-separated object members (non-empty). -/
def dumpMembers : JObj → List Char
  | .nil => []
  | .cons k v .nil => quoteStr k ++ ':' :: ' ' :: dumpJson v
  | .cons k v (.cons k2 v2 t) =>
      quoteStr k ++ ':' :: ' ' :: dumpJson v ++
        ',' :: ' ' :: dumpMembers (.cons k2 v2 t)
termination_by structural kvs => kvs
end

/-! ## `json.loads` -/

/-- Skip JSON whitespace (space, tab, newline, carriage return). -/
def skipWs : List Char → List Char
  | c :: rest =>
      if c = ' ' ∨ c = Char.ofNat 9 ∨ c = Char.ofNat 10 ∨ c = Char.ofNat 13
      then skipWs rest else c :: rest
  | [] => []

/-- Hexadecimal digit value (both cases accepted, as Python does). -/
def parseHexDigit (c : Char) : Option Nat :=
  let n := c.toNat
  if 48 ≤ n ∧ n ≤ 57 then some (n - 48)
  else if 97 ≤ n ∧ n ≤ 102 then some (n - 87)
  else if 65 ≤ n ∧ n ≤ 70 then some (n - 55)
  else none

/-- Value of a four-hex-digit escape. -/
def hex4Val (a b c d : Char) : Option Nat :=
  match parseHexDigit a, parseHexDigit b, parseHexDigit c, parseHexDigit d with
  | some x, some y, some z, some w => some (x * 4096 + y * 256 + z * 16 + w)
  | _, _, _, _ => none

/-- The strict JSON two-character escapes (`\"` `\\` `\/` `\b` `\f` `\n`
`\r` `\t`). -/
def escUnquote (e : Char) : Option Char :=
  if e = quoteC then some quoteC
  else if e = backslashC then some backslashC
  else if e = '/' then some '/'
  else if e = 'b' then some (Char.ofNat 8)
  else if e = 'f' then some (Char.ofNat 12)
  else if e = 'n' then some (Char.ofNat 10)
  else if e = 'r' then some (Char.ofNat 13)
  else if e = 't' then some (Char.ofNat 9)
  else none

/-- Parse the four hex digits of a `\\uXXXX` escape (after the `u`). -/
def parseU (s : List Char) : Option (Nat × List Char) :=
  match s with
  | a :: b :: c :: d :: rest =>
      match hex4Val a b c d with
      | some n => some (n, rest)
      | none => none
  | _ => none

/-- Parse one escape sequence after a backslash: `\\uXXXX` (with a UTF-16
surrogate pair recombined into one scalar) or a two-character escape.  Lone
surrogates, which Python would keep as surrogate code points
(unrepresentable in `Char`), are modelled as failures. -/
def parseEsc (s : List Char) : Option (Char × List Char) :=
  match s with
  | [] => none
  | e :: rest =>
      if e = 'u' then
        match parseU rest with
        | none => none
        | some (n, r1) =>
            if n < 55296 ∨ 57344 ≤ n then some (Char.ofNat n, r1)
            else if n < 56320 then
              match r1 with
              | e2 :: u2 :: r2 =>
                  if e2 = backslashC ∧ u2 = 'u' then
                    match parseU r2 with
                    | some (m, r3) =>
                        if 56320 ≤ m ∧ m < 57344 then
                          some (Char.ofNat (65536 + (n - 55296) * 1024 +
                            (m - 56320)), r3)
                        else none
                    | none => none
                  else none
              | _ => none
            else none
      else
        match escUnquote e with
        | some c2 => some (c2, rest)
        | none => none

/-- Parse a JSON string body after the opening quote, returning the decoded
content and the text after the closing quote.  Raw control characters are
rejected as in strict-mode `json.loads`.  Fuel-indexed (every step consumes
at least one character, so fuel = remaining input length always
suffices). -/
def parseStrBody : Nat → List Char → Option (List Char × List Char)
  | 0, _ => none
  | _ + 1, [] => none
  | f + 1, c :: rest =>
      if c = quoteC then some ([], rest)
      else if c = backslashC then
        match parseEsc rest with
        | some (c2, r) =>
            match parseStrBody f r with
            | some (s, r2) => some (c2 :: s, r2)
            | none => none
        | none => none
      else if c.toNat < 32 then none
      else
        match parseStrBody f rest with
        | some (s, r2) => some (c :: s, r2)
        | none => none

/-- Decimal digit test. -/
def isDigitCh (c : Char) : Bool :=
  decide (48 ≤ c.toNat) && decide (c.toNat ≤ 57)

/-- Value of a run of decimal digits (most significant first). -/
def digitsVal (ds : List Char) : Nat :=
  ds.foldl (fun acc c => acc * 10 + (c.toNat - 48)) 0

/-- Parse a JSON natural-number literal (no leading zero unless the literal
is exactly `0`); a following `.`/`e`/`E`, which Python would turn into a
float, is modelled as a failure. -/
def parseNat (s : List Char) : Option (Nat × List Char) :=
  let ds := s.takeWhile isDigitCh
  let r := s.dropWhile isDigitCh
  if ds.length = 0 then none
  else if 2 ≤ ds.length ∧ ds.head? = some '0' then none
  else
    match r with
    | c :: _ =>
        if c = '.' ∨ c = 'e' ∨ c = 'E' then none else some (digitsVal ds, r)
    | [] => some (digitsVal ds, [])

/-- Parse a JSON integer literal with optional minus sign. -/
def parseNum (s : List Char) : Option (Json × List Char) :=
  match s with
  | [] => none
  | c :: rest =>
      if c = '-' then
        match parseNat rest with
        | some (n, r) => some (.num (-(n : Int)), r)
        | none => none
      else
        match parseNat (c :: rest) with
        | some (n, r) => some (.num (n : Int), r)
        | none => none

mutual
/-- Parse one JSON value (fuel-indexed; `jsonParse` supplies the input
length as fuel, which suffices for every accepted input shape). -/
def parseValue : Nat → List Char → Option (Json × List Char)
  | 0, _ => none
  | f + 1, s =>
      match skipWs s with
      | [] => none
      | c :: rest =>
          if c = quoteC then
            match parseStrBody rest.length rest with
            | some (content, r) => some (.str content, r)
            | none => none
          else if c = lbraceC then
            match skipWs rest with
            | c2 :: r2 =>
                if c2 = rbraceC then some (.obj .nil, r2)
                else
                  match parseMembers f (c2 :: r2) with
                  | some (kvs, r3) => some (.obj kvs, r3)
                  | none => none
            | [] => none
          else if c = '[' then
            match skipWs rest with
            | c2 :: r2 =>
                if c2 = ']' then some (.arr .nil, r2)
                else
                  match parseElems f (c2 :: r2) with
                  | some (xs, r3) => some (.arr xs, r3)
                  | none => none
            | [] => none
          else if c = 'n' then
            match rest with
            | 'u' :: 'l' :: 'l' :: r2 => some (.null, r2)
            | _ => none
          else if c = 't' then
            match rest with
            | 'r' :: 'u' :: 'e' :: r2 => some (.bool true, r2)
            | _ => none
          else if c = 'f' then
            match rest with
            | 'a' :: 'l' :: 's' :: 'e' :: r2 => some (.bool false, r2)
            | _ => none
          else parseNum (c :: rest)
/-- Parse a non-empty comma-separated element list up to and including the
closing `]`. -/
def parseElems : Nat → List Char → Option (JList × List Char)
  | 0, _ => none
  | f + 1, s =>
      match parseValue f s with
      | none => none
      | some (v, r1) =>
          match skipWs r1 with
          | c :: r2 =>
              if c = ',' then
                match parseElems f r2 with
                | some (tl, r3) => some (.cons v tl, r3)
                | none => none
              else if c = ']' then some (.cons v .nil, r2)
              else none
          | [] => none
/-- Parse a non-empty comma-separated member list up to and including the
closing brace. -/
def parseMembers : Nat → List Char → Option (JObj × List Char)
  | 0, _ => none
  | f + 1, s =>
      match skipWs s with
      | c :: r0 =>
          if c = quoteC then
            match parseStrBody r0.length r0 with
            | none => none
            | some (k, r1) =>
                match skipWs r1 with
                | c2 :: r2 =>
                    if c2 = ':' then
                      match parseValue f r2 with
                      | none => none
                      | some (v, r3) =>
                          match skipWs r3 with
                          | c3 :: r4 =>
                              if c3 = ',' then
                                match parseMembers f r4 with
                                | some (tl, r5) => some (.cons k v tl, r5)
                                | none => none
                              else if c3 = rbraceC then
                                some (.cons k v .nil, r4)
                              else none
                          | [] => none
                    else none
                | [] => none
          else none
      | [] => none
end

/-- `json.loads`: parse one value, allowing only trailing whitespace. -/
def jsonParse (s : List Char) : Option Json :=
  match parseValue s.length s with
  | some (j, rest) => if skipWs rest = [] then some j else none
  | none => none

/-! ## Python-level helpers used by the extraction walk -/

/-- Elements of a JSON array as a Lean list. -/
def jlistToList : JList → List Json
  | .nil => []
  | .cons h t => h :: jlistToList t

/-- Keys of a JSON object in insertion order (with duplicates). -/
def objKeysRaw : JObj → List (List Char)
  | .nil => []
  | .cons k _ tl => k :: objKeysRaw tl

/-- Keys of a JSON object as Python's `dict` sees them: unique, in
first-insertion order. -/
def objKeys (kvs : JObj) : List (List Char) := (objKeysRaw kvs).dedup

/-- Python `k in d` for an object. -/
def objHasKey (k : List Char) (kvs : JObj) : Bool := (objLookup k kvs).isSome

/-- Prefix test on character lists. -/
def startsWithChars : List Char → List Char → Bool
  | [], _ => true
  | _ :: _, [] => false
  | a :: as, b :: bs => a == b && startsWithChars as bs

/-- Substring test (Python `needle in haystack` on strings). -/
def isSubChars (needle : List Char) : List Char → Bool
  | [] => needle.isEmpty
  | c :: rest => startsWithChars needle (c :: rest) || isSubChars needle rest

/-- The two exception classes distinguished by `decode_jwt`'s extraction
handlers (source lines 207-213): `KeyError` with the missing key, and every
other exception (`TypeError`, `AttributeError`, ...). -/
inductive PyErr where
  | keyError (k : List Char) : PyErr
  | typeErr : PyErr
deriving DecidableEq

/-- Python `d[k]` with a string key: dict lookup (missing key raises
`KeyError`), any other JSON value raises `TypeError`. -/
def jIndex (j : Json) (k : List Char) : Except PyErr Json :=
  match j with
  | .obj kvs =>
      match objLookup k kvs with
      | some v => .ok v
      | none => .error (.keyError k)
  | _ => .error .typeErr

/-- Python `k in j` with a string operand: key test on dicts, membership on
lists, substring test on strings, `TypeError` otherwise. -/
def jContains (j : Json) (k : List Char) : Except PyErr Bool :=
  match j with
  | .obj kvs => .ok (objHasKey k kvs)
  | .arr xs => .ok ((jlistToList xs).contains (.str k))
  | .str s => .ok (isSubChars k s)
  | _ => .error .typeErr

/-- Python `for x in j`: elements of a list, keys of a dict, one-character
strings of a string, `TypeError` otherwise. -/
def jIter (j : Json) : Except PyErr (List Json) :=
  match j with
  | .arr xs => .ok (jlistToList xs)
  | .obj kvs => .ok ((objKeys kvs).map .str)
  | .str s => .ok (s.map (fun c => .str [c]))
  | _ => .error .typeErr

/-- Python `d.get(k, default)`: `AttributeError` (folded into `typeErr`) on
non-dicts. -/
def jGetD (j : Json) (k : List Char) (dflt : Json) : Except PyErr Json :=
  match j with
  | .obj kvs => .ok ((objLookup k kvs).getD dflt)
  | _ => .error .typeErr

/-! ## Printed diagnostics

One constructor per `print` statement of the script, carrying the dynamic
data that is interpolated into the printed line. -/

inductive Msg where
  | readEvidence : Msg
  | fileNotFound : Msg
  | evidenceFieldNotFound : Msg
  | loadFailed : Msg
  | evidenceLen (n : Nat) : Msg
  | usePolicyId (pid : List Char) : Msg
  | useAAInstanceInfo (s : List Char) : Msg
  | sendingRequest : Msg
  | httpStatus (n : Nat) : Msg
  | verifySucceeded : Msg
  | tokenSaved : Msg
  | verifyFailed : Msg
  | errorResponseJson (j : Json) : Msg
  | errorResponseRaw (t : List Char) : Msg
  | requestError : Msg
  | invalidJwtFormat : Msg
  | jwtHeader (h : Json) : Msg
  | jwtPayloadFull (p : Json) : Msg
  | payloadSaved : Msg
  | verificationResultHeader : Msg
  | verificationStatus (v : Json) : Msg
  | trustVector (conf execs fs : Json) : Msg
  | reportData (v : Json) : Msg
  | startAppHeader : Msg
  | startAppLog (details : Json) : Msg
  | startAppNotFound : Msg
  | cryptpilotHeader : Msg
  | cryptpilotLog (op content : Json) : Msg
  | cryptpilotNotFound : Msg
  | missingFields (k : List Char) : Msg
  | extractError : Msg
  | decodeJwtFailed : Msg
deriving DecidableEq

/-- Python `bytes.decode()` modelled for ASCII payloads: bytes ≥ 0x80
(which real UTF-8 decoding would combine into multi-byte characters, or
reject) are modelled as failures; no theorem input is non-ASCII. -/
def asciiDecode : List Nat → Option (List Char)
  | [] => some []
  | b :: rest =>
      if b < 128 then
        match asciiDecode rest with
        | some cs => some (Char.ofNat b :: cs)
        | none => none
      else none

/-- The `'N/A'` placeholder value used as a `.get` default. -/
def naJson : Json := .str ("N/A".toList)

/-! ## `decode_jwt` (source lines 117-218) -/

/-- One JWT segment's decode step (source lines 126-129 / 137-140): pad,
base64url-decode, UTF-8-decode (modelled for ASCII payloads), `json.loads`.
`none` is a raised exception at any stage. -/
def decodeSegment (seg : List Char) : Option Json :=
  match b64decodePadded (jwtPad seg) with
  | none => none
  | some bytes =>
      match asciiDecode bytes with
      | none => none
      | some chars => jsonParse chars

/-- Python `"x.y.z".split('.')`: split on every dot, keeping empty runs
(`"".split('.') == ['']`). -/
def splitDots : List Char → List (List Char)
  | [] => [[]]
  | c :: rest =>
      match splitDots rest with
      | [] => [[]]
      | seg :: segs => if c = '.' then [] :: seg :: segs else (c :: seg) :: segs

/-- The trust-vector block (source lines 163-168): three `.get` reads with
`'N/A'` defaults; a non-dict vector raises before anything is printed. -/
def trustVectorMsgs (ckvs : JObj) : List Msg × Option PyErr :=
  match objLookup ("ear.trustworthiness-vector".toList) ckvs with
  | none => ([], none)
  | some (.obj tkvs) =>
      ([.trustVector ((objLookup ("configuration".toList) tkvs).getD naJson)
          ((objLookup ("executables".toList) tkvs).getD naJson)
          ((objLookup ("file-system".toList) tkvs).getD naJson)], none)
  | some _ => ([], some .typeErr)

/-- The per-log test and print of the start-app filter (source lines
182-186): a log entry contributes a message when `details.data` exists, is
a dict, and has `operation == "start_app"`. -/
def logStartApp (log : Json) : Except PyErr (Option Msg) := do
  let c1 ← jContains log ("details".toList)
  if c1 then
    let d ← jIndex log ("details".toList)
    let c2 ← jContains d ("data".toList)
    if c2 then
      let data ← jIndex d ("data".toList)
      match data with
      | .obj dk =>
          if objLookup ("operation".toList) dk = some (.str ("start_app".toList))
          then pure (some (.startAppLog d))
          else pure none
      | _ => pure none
    else pure none
  else pure none

/-- The start-app loop (source lines 180-187): accumulates printed logs, a
found flag, and stops at the first raised exception (messages printed
before it are kept). -/
def startAppLoop : List Json → List Msg × Bool × Option PyErr
  | [] => ([], false, none)
  | log :: rest =>
      match logStartApp log with
      | .error e => ([], false, some e)
      | .ok none => startAppLoop rest
      | .ok (some m) =>
          match startAppLoop rest with
          | (ms, _, e) => (m :: ms, true, e)

/-- The per-log test and print of the cryptpilot filter (source lines
196-202). -/
def logCryptpilot (log : Json) : Except PyErr (Option Msg) := do
  let c1 ← jContains log ("details".toList)
  if c1 then
    let d ← jIndex log ("details".toList)
    let c2 ← jContains d ("data".toList)
    if c2 then
      let data ← jIndex d ("data".toList)
      match data with
      | .obj dk =>
          if objLookup ("domain".toList) dk =
              some (.str ("cryptpilot.alibabacloud.com".toList)) then
            pure (some (.cryptpilotLog ((objLookup ("operation".toList) dk).getD naJson)
              ((objLookup ("content".toList) dk).getD naJson)))
          else pure none
      | _ => pure none
    else pure none
  else pure none

/-- The cryptpilot loop (source lines 194-203). -/
def cryptpilotLoop : List Json → List Msg × Bool × Option PyErr
  | [] => ([], false, none)
  | log :: rest =>
      match logCryptpilot log with
      | .error e => ([], false, some e)
      | .ok none => cryptpilotLoop rest
      | .ok (some m) =>
          match cryptpilotLoop rest with
          | (ms, _, e) => (m :: ms, true, e)

/-- The report-data block (source lines 171-175). -/
def reportDataMsgs (evd : Json) : List Msg × Option PyErr :=
  match jContains evd ("tdx".toList) with
  | .error e => ([], some e)
  | .ok false => ([], none)
  | .ok true =>
      match jIndex evd ("tdx".toList) with
      | .error e => ([], some e)
      | .ok t =>
          match jContains t ("quote".toList) with
          | .error e => ([], some e)
          | .ok false => ([], none)
          | .ok true =>
              match jIndex t ("quote".toList) with
              | .error e => ([], some e)
              | .ok q =>
                  match jIndex q ("body".toList) with
                  | .error e => ([], some e)
                  | .ok b =>
                      match jGetD b ("report_data".toList) naJson with
                      | .error e => ([], some e)
                      | .ok rd => ([.reportData rd], none)

/-- The start-app block (source lines 178-189), guarded by
`'tdx' in evidence and 'uefi_event_logs' in evidence['tdx']`. -/
def startAppMsgs (evd : Json) : List Msg × Option PyErr :=
  match jContains evd ("tdx".toList) with
  | .error e => ([], some e)
  | .ok false => ([], none)
  | .ok true =>
      match jIndex evd ("tdx".toList) with
      | .error e => ([], some e)
      | .ok t =>
          match jContains t ("uefi_event_logs".toList) with
          | .error e => ([], some e)
          | .ok false => ([], none)
          | .ok true =>
              match jIndex t ("uefi_event_logs".toList) with
              | .error e => ([], some e)
              | .ok logsV =>
                  match jIter logsV with
                  | .error e => ([Msg.startAppHeader], some e)
                  | .ok logs =>
                      match startAppLoop logs with
                      | (ms, _, some e) => (Msg.startAppHeader :: ms, some e)
                      | (ms, found, none) =>
                          if found then (Msg.startAppHeader :: ms, none)
                          else (Msg.startAppHeader :: ms ++ [.startAppNotFound], none)

/-- The cryptpilot block (source lines 192-205), entered only in verbose
mode. -/
def cryptpilotMsgs (evd : Json) : List Msg × Option PyErr :=
  match jContains evd ("tdx".toList) with
  | .error e => ([], some e)
  | .ok false => ([], none)
  | .ok true =>
      match jIndex evd ("tdx".toList) with
      | .error e => ([], some e)
      | .ok t =>
          match jContains t ("uefi_event_logs".toList) with
          | .error e => ([], some e)
          | .ok false => ([], none)
          | .ok true =>
              match jIndex t ("uefi_event_logs".toList) with
              | .error e => ([], some e)
              | .ok logsV =>
                  match jIter logsV with
                  | .error e => ([Msg.cryptpilotHeader], some e)
                  | .ok logs =>
                      match cryptpilotLoop logs with
                      | (ms, _, some e) => (Msg.cryptpilotHeader :: ms, some e)
                      | (ms, found, none) =>
                          if found then (Msg.cryptpilotHeader :: ms, none)
                          else (Msg.cryptpilotHeader :: ms ++ [.cryptpilotNotFound], none)

/-- The annotated-evidence blocks (source lines 171-205), in order:
report data, start-app logs, then (verbose only) cryptpilot logs; the
first raised exception aborts the rest but keeps earlier prints. -/
def evidenceMsgs (evd : Json) (verbose : Bool) : List Msg × Option PyErr :=
  match reportDataMsgs evd with
  | (m1, some e) => (m1, some e)
  | (m1, none) =>
      match startAppMsgs evd with
      | (m2, some e) => (m1 ++ m2, some e)
      | (m2, none) =>
          if verbose then
            match cryptpilotMsgs evd with
            | (m3, e) => (m1 ++ m2 ++ m3, e)
          else (m1 ++ m2, none)

/-- The body of the inner `try` (source lines 158-205), after `cpu0` has
been found to be a dict. -/
def extractCpu0 (ckvs : JObj) (verbose : Bool) : List Msg × Option PyErr :=
  match objLookup ("ear.status".toList) ckvs with
  | none => ([], some (.keyError ("ear.status".toList)))
  | some vstatus =>
      match trustVectorMsgs ckvs with
      | (m2, some e) => (Msg.verificationStatus vstatus :: m2, some e)
      | (m2, none) =>
          match objLookup ("ear.veraison.annotated-evidence".toList) ckvs with
          | none => (Msg.verificationStatus vstatus :: m2, none)
          | some evd =>
              match evidenceMsgs evd verbose with
              | (m3, e) => (Msg.verificationStatus vstatus :: m2 ++ m3, e)

/-- The inner `try` body (source lines 158-205):
`payload['submods']['cpu0']` then the cpu0 walk. -/
def extractCore (payload : Json) (verbose : Bool) : List Msg × Option PyErr :=
  match payload with
  | .obj pkvs =>
      match objLookup ("submods".toList) pkvs with
      | none => ([], some (.keyError ("submods".toList)))
      | some (.obj skvs) =>
          match objLookup ("cpu0".toList) skvs with
          | none => ([], some (.keyError ("cpu0".toList)))
          | some (.obj ckvs) => extractCpu0 ckvs verbose
          | some _ => ([], some .typeErr)
      | some _ => ([], some .typeErr)
  | _ => ([], some .typeErr)

/-- The extraction step with its two `except` handlers (source lines
156-213): a `KeyError` appends the missing-fields line, any other exception
appends the generic extraction-error line; prints made before the exception
are kept. -/
def extractInfo (payload : Json) (verbose : Bool) : List Msg :=
  match extractCore payload verbose with
  | (ms, none) => ms
  | (ms, some (.keyError k)) => ms ++ [.missingFields k]
  | (ms, some .typeErr) => ms ++ [.extractError]

/-- Output of `decode_jwt`: the printed lines and the content written to
`jwt_payload.json` (`none` when the write is never reached). -/
structure DecodeOut where
  msgs : List Msg
  payloadFile : Option Json
deriving DecidableEq

/-- `decode_jwt` (source lines 117-218).  The whole body sits in a single
`try`: a wrong segment count prints and returns; a decode failure of either
of the first two segments jumps to the one shared handler (line 215), so a
header failure also skips the payload decode and the payload-file write. -/
def decode_jwt (jwt_token : List Char) (verbose : Bool) : DecodeOut :=
  match splitDots jwt_token with
  | [p0, p1, _p2] =>
      match decodeSegment p0 with
      | none => ⟨[.decodeJwtFailed], none⟩
      | some header =>
          let hm : List Msg := if verbose then [.jwtHeader header] else []
          match decodeSegment p1 with
          | none => ⟨hm ++ [.decodeJwtFailed], none⟩
          | some payload =>
              let pm : List Msg := if verbose then [.jwtPayloadFull payload] else []
              let sm : List Msg := if verbose then [.payloadSaved] else []
              ⟨hm ++ pm ++ sm ++ [.verificationResultHeader] ++
                  extractInfo payload verbose,
                some payload⟩
  | _ => ⟨[.invalidJwtFormat], none⟩

/-! ## `verify_evidence` (source lines 13-115) -/

/-- State of the `evidence.json` read: file missing (`FileNotFoundError`),
unreadable/not-JSON (the generic handler at line 41), or parsed JSON. -/
inductive EvFile where
  | missing : EvFile
  | malformed : EvFile
  | json (j : Json) : EvFile
deriving DecidableEq

/-- The one HTTP response (status code and body text). -/
structure Response where
  statusCode : Nat
  text : List Char
deriving DecidableEq

/-- Externally supplied inputs of one run: the evidence-file state, the
five environment strings (already defaulted, `POLICY_ID` to `tapp` and the
identity fields to `''`), and the attestation service's behaviour for the
single POST (`none` = transport failure, a `RequestException`). -/
structure RunInput where
  evidenceFile : EvFile
  policy_id : List Char
  image_id : List Char
  instance_id : List Char
  instance_name : List Char
  owner_account_id : List Char
  response : Option Response
deriving DecidableEq

/-- Observable outcome of one run: process exit code (0 = fell off the end
of `main`, 1 = `sys.exit(1)` or an uncaught exception), whether
`requests.post` was attempted, the contents written to `jwt_token.txt` and
`jwt_payload.json` (`none` = never written), and the printed lines. -/
structure RunOutput where
  exitCode : Nat
  networkCalled : Bool
  jwtTokenFile : Option (List Char)
  jwtPayloadFile : Option Json
  msgs : List Msg
deriving DecidableEq

/-- The `aa_instance_info` dict built at source lines 66-74: one optional
entry per identity field, in the source's insertion order, each included
exactly when the field is a non-empty string. -/
def buildAAInstanceInfo (image_id instance_id instance_name
    owner_account_id : List Char) : JObj :=
  let l4 : JObj :=
    if owner_account_id = [] then .nil
    else .cons ("owner_account_id".toList) (.str owner_account_id) .nil
  let l3 : JObj :=
    if instance_name = [] then l4
    else .cons ("instance_name".toList) (.str instance_name) l4
  let l2 : JObj :=
    if instance_id = [] then l3
    else .cons ("instance_id".toList) (.str instance_id) l3
  if image_id = [] then l2
  else .cons ("image_id".toList) (.str image_id) l2

/-- The optional `AAInstanceInfo` request header (source lines 64-76):
present iff at least one identity field is truthy (non-empty), with the
JSON-serialised info dict as its value. -/
def aaHeaderValue (image_id instance_id instance_name
    owner_account_id : List Char) : Option (List Char) :=
  if image_id ≠ [] ∨ instance_id ≠ [] ∨ instance_name ≠ [] ∨
      owner_account_id ≠ [] then
    some (dumpJson (.obj (buildAAInstanceInfo image_id instance_id
      instance_name owner_account_id)))
  else none

/-- Python `len(evidence_body)` (source line 47): defined for strings,
lists and dicts; any other JSON value raises an uncaught `TypeError`
(dict length counts unique keys). -/
def evLen : Json → Option Nat
  | .str s => some s.length
  | .arr xs => some (jlistToList xs).length
  | .obj kvs => some (objKeys kvs).length
  | _ => none

/-- The run from source line 47 on, once `evidence_body` has been
extracted: info prints, optional identity header, the POST and both
response branches (source lines 47-115). -/
def afterLoad (inp : RunInput) (verbose : Bool) (ev : Json) : RunOutput :=
  match evLen ev with
  | none => ⟨1, false, none, none, [.readEvidence]⟩
  | some n =>
      let aam : List Msg :=
        match aaHeaderValue inp.image_id inp.instance_id inp.instance_name
            inp.owner_account_id with
        | some s => [.useAAInstanceInfo s]
        | none => []
      let pre : List Msg :=
        Msg.readEvidence :: Msg.evidenceLen n :: Msg.usePolicyId inp.policy_id ::
          aam ++ [Msg.sendingRequest]
      match inp.response with
      | none => ⟨1, true, none, none, pre ++ [.requestError]⟩
      | some r =>
          let pre2 := pre ++ [Msg.httpStatus r.statusCode]
          if r.statusCode = 200 then
            let d := decode_jwt r.text verbose
            ⟨0, true, some r.text, d.payloadFile,
              pre2 ++ [Msg.verifySucceeded] ++ d.msgs ++ [Msg.tokenSaved]⟩
          else
            let em : Msg :=
              match jsonParse r.text with
              | some ej => .errorResponseJson ej
              | none => .errorResponseRaw r.text
            ⟨1, true, none, none, pre2 ++ [Msg.verifyFailed, em]⟩

/-- `verify_evidence` (source lines 13-115) as a function of the run's
inputs.  The evidence load (lines 29-45): a missing file, a load failure,
a non-dict top level (`TypeError` in `evidence_data['evidence']`, caught by
the generic handler) and a missing `evidence` key (`KeyError`) each
`sys.exit(1)` before any network activity; note the `KeyError` branch fires
only on a *missing* key — an empty-string value passes. -/
def verify_evidence_run (inp : RunInput) (verbose : Bool) : RunOutput :=
  match inp.evidenceFile with
  | .missing => ⟨1, false, none, none, [.readEvidence, .fileNotFound]⟩
  | .malformed => ⟨1, false, none, none, [.readEvidence, .loadFailed]⟩
  | .json j =>
      match j with
      | .obj kvs =>
          match objLookup ("evidence".toList) kvs with
          | none => ⟨1, false, none, none, [.readEvidence, .evidenceFieldNotFound]⟩
          | some ev => afterLoad inp verbose ev
      | _ => ⟨1, false, none, none, [.readEvidence, .loadFailed]⟩

/-- Characters that legitimately follow a serialized JSON value inside a
larger serialized document (separator, closing bracket, closing brace) or
its end; used to state the print-parse round-trip. -/
def stopOk : List Char → Prop
  | [] => True
  | c :: _ => c = ',' ∨ c = ']' ∨ c = rbraceC

mutual
/-- Call-depth bound of `parseValue` on the serialization of a value. -/
def dfuel : Json → Nat
  | .null => 1
  | .bool _ => 1
  | .num _ => 1
  | .str _ => 1
  | .arr .nil => 1
  | .arr (.cons h t) => 1 + efuel (.cons h t)
  | .obj .nil => 1
  | .obj (.cons k v t) => 1 + ofuel (.cons k v t)
termination_by structural j => j
/-- Call-depth bound of `parseElems` on a serialized element list. -/
def efuel : JList → Nat
  | .nil => 1
  | .cons h t => 1 + max (dfuel h) (efuel t)
termination_by structural xs => xs
/-- Call-depth bound of `parseMembers` on a serialized member list. -/
def ofuel : JObj → Nat
  | .nil => 1
  | .cons _ v t => 1 + max (dfuel v) (ofuel t)
termination_by structural kvs => kvs
end

/-- Build a `JObj` from an association list (used to state spec-side
expectations). -/
def objOfList : List (List Char × Json) → JObj
  | [] => .nil
  | (k, v) :: rest => .cons k v (objOfList rest)

/-- Spec-side description of the identity-context content: exactly the
non-empty fields, in the fixed order image id, instance id, instance name,
owner account id ("the JSON serialization of exactly the non-empty
fields"). -/
def nonEmptyIdentityFieldsSpec (image_id instance_id instance_name
    owner_account_id : List Char) : List (List Char × Json) :=
  (([(("image_id".toList), image_id), (("instance_id".toList), instance_id),
    (("instance_name".toList), instance_name),
    (("owner_account_id".toList), owner_account_id)].filter
      (fun p => !p.2.isEmpty)).map (fun p => (p.1, Json.str p.2)))

/-- Whether the fixed extraction path `submods.cpu0.'ear.status'` exists in
a payload: each step must find the key in an object.  Used to state claims
about payloads "lacking" this path. -/
def hasEarStatusPath (p : Json) : Bool :=
  match p with
  | .obj pk =>
      match objLookup ("submods".toList) pk with
      | some (.obj sk) =>
          match objLookup ("cpu0".toList) sk with
          | some (.obj ck) => (objLookup ("ear.status".toList) ck).isSome
          | _ => false
      | _ => false
  | _ => false

/-- How the walk down `submods.cpu0.'ear.status'` can end: the path is
present, a named key is missing from an object along the walk (the spec's
missing-field mode), or an intermediate value is not an object (the mode
where subscripting raises a `TypeError`-class exception). -/
inductive PathStatus where
  | present : PathStatus
  | missingKey : List Char → PathStatus
  | nonObject : PathStatus
deriving DecidableEq

/-- Spec-side classifier of a payload along the fixed extraction path:
which of the three `PathStatus` modes it falls in, and for a missing key,
which key.  Used to state the mode-to-diagnostic correspondence. -/
def earStatusPathStatus (p : Json) : PathStatus :=
  match p with
  | .obj pk =>
      match objLookup ("submods".toList) pk with
      | none => .missingKey ("submods".toList)
      | some (.obj sk) =>
          match objLookup ("cpu0".toList) sk with
          | none => .missingKey ("cpu0".toList)
          | some (.obj ck) =>
              match objLookup ("ear.status".toList) ck with
              | none => .missingKey ("ear.status".toList)
              | some _ => .present
          | some _ => .nonObject
      | some _ => .nonObject
  | _ => .nonObject

/-! # Theorems

## base64url round-trip -/

theorem charToSextet_sextetToChar : ∀ v : Fin 64,
    charToSextet (sextetToChar v.val) = some v.val := by decide

theorem sextetToChar_ne_pad : ∀ v : Fin 64, sextetToChar v.val ≠ '=' := by decide

theorem bytesToSextets_lt (bs : List Nat) (h : ∀ b ∈ bs, b < 256) :
    ∀ v ∈ bytesToSextets bs, v < 64 := by
  induction bs using bytesToSextets.induct with
  | case1 b1 b2 b3 rest ih =>
      simp only [bytesToSextets, List.mem_cons] at *
      intro v hv
      rcases hv with rfl | rfl | rfl | rfl | hv
      · have := h b1 (by tauto); omega
      · have h1 := h b1 (by tauto); have h2 := h b2 (by tauto); omega
      · have h2 := h b2 (by tauto); have h3 := h b3 (by tauto); omega
      · have := h b3 (by tauto); omega
      · exact ih (fun b hb => h b (by tauto)) v hv
  | case2 b1 b2 =>
      simp only [bytesToSextets, List.mem_cons] at *
      intro v hv
      have h1 := h b1 (by tauto); have h2 := h b2 (by tauto)
      rcases hv with rfl | rfl | rfl | hv
      · omega
      · omega
      · omega
      · simp at hv
  | case3 b1 =>
      simp only [bytesToSextets, List.mem_cons] at *
      intro v hv
      have h1 := h b1 (by tauto)
      rcases hv with rfl | rfl | hv
      · omega
      · omega
      · simp at hv
  | case4 => intro v hv; simp [bytesToSextets] at hv

theorem sextetsToBytes_bytesToSextets (bs : List Nat) (h : ∀ b ∈ bs, b < 256) :
    sextetsToBytes (bytesToSextets bs) = bs := by
  induction bs using bytesToSextets.induct with
  | case1 b1 b2 b3 rest ih =>
      have h1 := h b1 (by simp)
      have h2 := h b2 (by simp)
      have h3 := h b3 (by simp)
      simp only [bytesToSextets, sextetsToBytes]
      rw [ih (fun b hb => h b (by simp [hb]))]
      simp only [List.cons.injEq, and_true, eq_self_iff_true]
      omega
  | case2 b1 b2 =>
      have h1 := h b1 (by simp)
      have h2 := h b2 (by simp)
      simp only [bytesToSextets, sextetsToBytes, List.cons.injEq, and_true]
      omega
  | case3 b1 =>
      have h1 := h b1 (by simp)
      simp only [bytesToSextets, sextetsToBytes, List.cons.injEq, and_true]
      omega
  | case4 => rfl

theorem charsToSextets_map (vs : List Nat) (h : ∀ v ∈ vs, v < 64) :
    charsToSextets (vs.map sextetToChar) = some vs := by
  induction vs with
  | nil => rfl
  | cons v rest ih =>
      have hv : v < 64 := h v (by simp)
      simp only [List.map_cons, charsToSextets]
      rw [charToSextet_sextetToChar ⟨v, hv⟩, ih (fun w hw => h w (by simp [hw]))]

theorem bytesToSextets_length_mod (bs : List Nat) :
    (bytesToSextets bs).length % 4 ≠ 1 := by
  induction bs using bytesToSextets.induct with
  | case1 b1 b2 b3 rest ih => simp only [bytesToSextets, List.length_cons]; omega
  | case2 b1 b2 => simp [bytesToSextets]
  | case3 b1 => simp [bytesToSextets]
  | case4 => simp [bytesToSextets]

theorem takeWhile_all_append (p : Char → Bool) (e r : List Char)
    (h : ∀ c ∈ e, p c = true) : (e ++ r).takeWhile p = e ++ r.takeWhile p := by
  induction e with
  | nil => rfl
  | cons c rest ih =>
      have hc : p c = true := h c (by simp)
      simp only [List.cons_append, List.takeWhile_cons, hc, if_true]
      rw [ih (fun d hd => h d (by simp [hd]))]

theorem dropWhile_all_append (p : Char → Bool) (e r : List Char)
    (h : ∀ c ∈ e, p c = true) : (e ++ r).dropWhile p = r.dropWhile p := by
  induction e with
  | nil => rfl
  | cons c rest ih =>
      simp only [List.cons_append, List.dropWhile_cons, h c (by simp), if_true]
      exact ih (fun d hd => h d (by simp [hd]))

/-- The byte-level round-trip: decoding (with the script's `=`-padding of
`4 - len % 4` characters) inverts unpadded base64url encoding for every
byte string — including the aligned case, where four excess pad characters
are appended and tolerated. -/
theorem b64url_roundtrip (bs : List Nat) (h : ∀ b ∈ bs, b < 256) :
    b64decodePadded (jwtPad (b64urlEncode bs)) = some bs := by
  have hlt := bytesToSextets_lt bs h
  have hne : ∀ c ∈ (bytesToSextets bs).map sextetToChar,
      decide (c ≠ '=') = true := by
    intro c hc
    simp only [List.mem_map] at hc
    obtain ⟨v, hv, rfl⟩ := hc
    simpa using sextetToChar_ne_pad ⟨v, hlt v hv⟩
  have hpadtw : ∀ k, List.takeWhile (fun c => decide (c ≠ '='))
      (List.replicate k '=') = [] := by
    intro k; cases k <;> simp [List.replicate, List.takeWhile_cons]
  have hpaddw : ∀ k, List.dropWhile (fun c => decide (c ≠ '='))
      (List.replicate k '=') = List.replicate k '=' := by
    intro k; cases k <;> simp [List.replicate, List.dropWhile_cons]
  have hmod := bytesToSextets_length_mod bs
  unfold b64decodePadded jwtPad b64urlEncode
  rw [takeWhile_all_append _ _ _ hne, dropWhile_all_append _ _ _ hne,
    hpadtw, hpaddw, List.append_nil]
  have hall : (List.replicate (padLen ((bytesToSextets bs).map sextetToChar)) '=').all
      (fun c => decide (c = '=')) = true := by
    simp [List.all_eq_true, List.mem_replicate]
  simp only [hall, if_true, charsToSextets_map _ hlt, List.length_replicate,
    padLen, List.length_map]
  by_cases h0 : (bytesToSextets bs).length % 4 = 0
  · simp [h0, sextetsToBytes_bytesToSextets bs h]
  · by_cases h2 : (bytesToSextets bs).length % 4 = 2
    · simp [h2, sextetsToBytes_bytesToSextets bs h]
    · have h3 : (bytesToSextets bs).length % 4 = 3 := by omega
      simp [h3, sextetsToBytes_bytesToSextets bs h]

/-! ## JSON string literal round-trip -/

theorem parseStrBody_quote (f : Nat) (r : List Char) :
    parseStrBody (f + 1) (quoteC :: r) = some ([], r) := by
  rw [parseStrBody]
  simp only [eq_self_iff_true, if_true]

theorem parseStrBody_plain (f : Nat) (c : Char) (r s rest : List Char)
    (hq : ¬ c = quoteC) (hb : ¬ c = backslashC) (hc : ¬ c.toNat < 32)
    (hr : parseStrBody f r = some (s, rest)) :
    parseStrBody (f + 1) (c :: r) = some (c :: s, rest) := by
  rw [parseStrBody]
  simp only [if_neg hq, if_neg hb, if_neg hc, hr]

theorem parseStrBody_esc (f : Nat) (c2 : Char) (r r2 s rest : List Char)
    (he : parseEsc r = some (c2, r2))
    (hr : parseStrBody f r2 = some (s, rest)) :
    parseStrBody (f + 1) (backslashC :: r) = some (c2 :: s, rest) := by
  have hbq : ¬ backslashC = quoteC := by decide
  rw [parseStrBody]
  simp only [if_neg hbq, eq_self_iff_true, if_true, he, hr]

theorem char_toNat_ofNat (n : Nat) (h : n.isValidChar) : (Char.ofNat n).toNat = n := by
  unfold Char.ofNat
  rw [dif_pos h]
  simp [Char.ofNatAux, Char.toNat, UInt32.toNat]

theorem char_valid_nat (c : Char) :
    c.toNat < 55296 ∨ (57344 ≤ c.toNat ∧ c.toNat < 1114112) := by
  rcases c.valid with h | ⟨h1, h2⟩
  · exact Or.inl h
  · exact Or.inr ⟨h1, h2⟩

theorem parseHexDigit_hexDigit : ∀ d : Fin 16,
    parseHexDigit (hexDigit d.val) = some d.val := by decide

theorem hex4Val_hex4 (n : Nat) (h : n < 65536) :
    hex4Val (hexDigit (n / 4096 % 16)) (hexDigit (n / 256 % 16))
      (hexDigit (n / 16 % 16)) (hexDigit (n % 16)) = some n := by
  rw [hex4Val, parseHexDigit_hexDigit ⟨n / 4096 % 16, by omega⟩,
    parseHexDigit_hexDigit ⟨n / 256 % 16, by omega⟩,
    parseHexDigit_hexDigit ⟨n / 16 % 16, by omega⟩,
    parseHexDigit_hexDigit ⟨n % 16, by omega⟩]
  simp only [Option.some.injEq]
  omega

theorem parseU_hex4 (n : Nat) (h : n < 65536) (r : List Char) :
    parseU (hex4 n ++ r) = some (n, r) := by
  simp only [hex4, List.cons_append, List.nil_append, parseU, hex4Val_hex4 n h]

theorem parseEsc_short (e c2 : Char) (rest : List Char)
    (he : ¬ e = 'u') (hesc : escUnquote e = some c2) :
    parseEsc (e :: rest) = some (c2, rest) := by
  rw [parseEsc]
  simp only [if_neg he, hesc]

theorem parseEsc_u (n : Nat) (r : List Char) (h : n < 65536)
    (hv : n < 55296 ∨ 57344 ≤ n) :
    parseEsc ('u' :: (hex4 n ++ r)) = some (Char.ofNat n, r) := by
  rw [parseEsc]
  simp only [eq_self_iff_true, if_true, parseU_hex4 n h, if_pos hv]

theorem parseEsc_surr (n m : Nat) (r : List Char)
    (hn1 : 55296 ≤ n) (hn2 : n < 56320) (hm1 : 56320 ≤ m) (hm2 : m < 57344) :
    parseEsc ('u' :: (hex4 n ++ backslashC :: 'u' :: (hex4 m ++ r))) =
      some (Char.ofNat (65536 + (n - 55296) * 1024 + (m - 56320)), r) := by
  have hno : ¬ (n < 55296 ∨ 57344 ≤ n) := by omega
  rw [parseEsc]
  simp only [eq_self_iff_true, if_true, parseU_hex4 n (by omega), if_neg hno,
    if_pos hn2, if_pos (show backslashC = backslashC ∧ 'u' = 'u' from ⟨rfl, rfl⟩),
    parseU_hex4 m (by omega), if_pos (show 56320 ≤ m ∧ m < 57344 from ⟨hm1, hm2⟩),
    and_self, if_true]

theorem escStep (e c : Char) (f : Nat) (t r : List Char)
    (he : ¬ e = 'u') (hesc : escUnquote e = some c)
    (hrec : parseStrBody f (escBody t ++ quoteC :: r) = some (t, r)) :
    parseStrBody (f + 1) (backslashC :: e :: (escBody t ++ quoteC :: r)) =
      some (c :: t, r) :=
  parseStrBody_esc f c _ _ t r (parseEsc_short e c _ he hesc) hrec

theorem parseStrBody_escBody (s : List Char) : ∀ (f : Nat) (r : List Char),
    (escBody s).length + 1 ≤ f →
    parseStrBody f (escBody s ++ quoteC :: r) = some (s, r) := by
  induction s with
  | nil =>
      intro f r hf
      obtain ⟨f', rfl⟩ : ∃ f', f = f' + 1 := ⟨f - 1, by omega⟩
      exact parseStrBody_quote f' r
  | cons c t ih =>
      intro f r hf
      have hlen : escBody (c :: t) = escChar c ++ escBody t := rfl
      rw [hlen] at hf ⊢
      rw [List.append_assoc]
      have hlc : 1 ≤ (escChar c).length := by
        unfold escChar
        repeat' split
        all_goals simp [hex4]
      have hfr : (escBody t).length + 1 ≤ f - 1 := by
        rw [List.length_append] at hf; omega
      obtain ⟨f', rfl⟩ : ∃ f', f = f' + 1 := ⟨f - 1, by omega⟩
      have ih' := ih f' r (by omega)
      by_cases h1 : c = quoteC
      · subst h1
        rw [show escChar quoteC = [backslashC, quoteC] from by decide]
        exact escStep quoteC quoteC f' t r (by decide) (by decide) ih'
      · by_cases h2 : c = backslashC
        · subst h2
          rw [show escChar backslashC = [backslashC, backslashC] from by decide]
          exact escStep backslashC backslashC f' t r (by decide) (by decide) ih'
        · by_cases h3 : c = Char.ofNat 8
          · subst h3
            rw [show escChar (Char.ofNat 8) = [backslashC, 'b'] from by decide]
            exact escStep 'b' (Char.ofNat 8) f' t r (by decide) (by decide) ih'
          · by_cases h4 : c = Char.ofNat 9
            · subst h4
              rw [show escChar (Char.ofNat 9) = [backslashC, 't'] from by decide]
              exact escStep 't' (Char.ofNat 9) f' t r (by decide) (by decide) ih'
            · by_cases h5 : c = Char.ofNat 10
              · subst h5
                rw [show escChar (Char.ofNat 10) = [backslashC, 'n'] from by decide]
                exact escStep 'n' (Char.ofNat 10) f' t r (by decide) (by decide) ih'
              · by_cases h6 : c = Char.ofNat 12
                · subst h6
                  rw [show escChar (Char.ofNat 12) = [backslashC, 'f'] from by decide]
                  exact escStep 'f' (Char.ofNat 12) f' t r (by decide) (by decide) ih'
                · by_cases h7 : c = Char.ofNat 13
                  · subst h7
                    rw [show escChar (Char.ofNat 13) = [backslashC, 'r'] from by decide]
                    exact escStep 'r' (Char.ofNat 13) f' t r (by decide) (by decide) ih'
                  · by_cases hp : 32 ≤ c.toNat ∧ c.toNat ≤ 126
                    · rw [show escChar c = [c] from by
                        unfold escChar
                        rw [if_neg h1, if_neg h2, if_neg h3, if_neg h4, if_neg h5,
                          if_neg h6, if_neg h7, if_pos hp]]
                      exact parseStrBody_plain f' c _ t r h1 h2 (by omega) ih'
                    · by_cases hbmp : c.toNat < 65536
                      · rw [show escChar c = backslashC :: 'u' :: hex4 c.toNat from by
                          unfold escChar
                          rw [if_neg h1, if_neg h2, if_neg h3, if_neg h4, if_neg h5,
                            if_neg h6, if_neg h7, if_neg hp, if_pos hbmp]]
                        have hv : c.toNat < 55296 ∨ 57344 ≤ c.toNat := by
                          rcases char_valid_nat c with h | ⟨ha, hb⟩
                          · exact Or.inl h
                          · exact Or.inr ha
                        have := parseStrBody_esc f' (Char.ofNat c.toNat) _ _ t r
                          (parseEsc_u c.toNat (escBody t ++ quoteC :: r) hbmp hv) ih'
                        rw [Char.ofNat_toNat] at this
                        simpa using this
                      · rw [show escChar c = backslashC :: 'u' ::
                            hex4 (55296 + (c.toNat - 65536) / 1024) ++
                            (backslashC :: 'u' :: hex4 (56320 + (c.toNat - 65536) % 1024)) from by
                          unfold escChar
                          rw [if_neg h1, if_neg h2, if_neg h3, if_neg h4, if_neg h5,
                            if_neg h6, if_neg h7, if_neg hp, if_neg hbmp]]
                        have hlim : c.toNat < 1114112 := by
                          rcases char_valid_nat c with h | ⟨ha, hb⟩
                          · omega
                          · exact hb
                        have hsur := parseStrBody_esc f'
                          (Char.ofNat (65536 + ((55296 + (c.toNat - 65536) / 1024) - 55296) * 1024 +
                            ((56320 + (c.toNat - 65536) % 1024) - 56320))) _ _ t r
                          (parseEsc_surr (55296 + (c.toNat - 65536) / 1024)
                            (56320 + (c.toNat - 65536) % 1024) (escBody t ++ quoteC :: r)
                            (by omega) (by omega) (by omega) (by omega)) ih'
                        have hval : 65536 + ((55296 + (c.toNat - 65536) / 1024) - 55296) * 1024 +
                            ((56320 + (c.toNat - 65536) % 1024) - 56320) = c.toNat := by omega
                        rw [hval, Char.ofNat_toNat] at hsur
                        simpa [List.cons_append, List.append_assoc] using hsur

/-! ## JSON number literal round-trip -/

theorem digitsVal_append_one (xs : List Char) (d : Char) :
    digitsVal (xs ++ [d]) = digitsVal xs * 10 + (d.toNat - 48) := by
  simp [digitsVal, List.foldl_append]

theorem digitChar_toNat (n : Nat) (h : n < 10) : (digitChar n).toNat = 48 + n :=
  char_toNat_ofNat (48 + n) (Or.inl (by omega))

theorem natDigitsAux_spec : ∀ (fuel n : Nat), n < fuel →
    (∀ c ∈ natDigitsAux fuel n, isDigitCh c = true) ∧
    1 ≤ (natDigitsAux fuel n).length ∧
    digitsVal (natDigitsAux fuel n) = n ∧
    (1 ≤ n → (natDigitsAux fuel n).head? ≠ some '0') := by
  intro fuel
  induction fuel with
  | zero => intro n h; omega
  | succ fuel ih =>
      intro n hn
      by_cases h10 : n < 10
      · rw [show natDigitsAux (fuel + 1) n = [digitChar n] from by
          rw [natDigitsAux]; rw [if_pos h10]]
        refine ⟨?_, by simp, ?_, ?_⟩
        · intro c hc
          simp only [List.mem_singleton] at hc
          subst hc
          simp [isDigitCh, digitChar_toNat n h10]
          omega
        · simp [digitsVal, digitChar_toNat n h10]
        · intro h1 hcon
          simp only [List.head?_cons, Option.some.injEq] at hcon
          have := congrArg Char.toNat hcon
          rw [digitChar_toNat n h10] at this
          rw [show ('0').toNat = 48 from rfl] at this
          omega
      · rw [show natDigitsAux (fuel + 1) n =
            natDigitsAux fuel (n / 10) ++ [digitChar (n % 10)] from by
          rw [natDigitsAux]; rw [if_neg h10]]
        have hrec := ih (n / 10) (by omega)
        obtain ⟨hd, hl, hv, hh⟩ := hrec
        refine ⟨?_, by simp, ?_, ?_⟩
        · intro c hc
          rw [List.mem_append] at hc
          rcases hc with hc | hc
          · exact hd c hc
          · simp only [List.mem_singleton] at hc
            subst hc
            simp [isDigitCh, digitChar_toNat (n % 10) (by omega)]
            omega
        · rw [digitsVal_append_one, hv, digitChar_toNat (n % 10) (by omega)]
          omega
        · intro _
          obtain ⟨x, xs, hx⟩ : ∃ x xs, natDigitsAux fuel (n / 10) = x :: xs := by
            cases hnd : natDigitsAux fuel (n / 10) with
            | nil => rw [hnd] at hl; simp at hl
            | cons x xs => exact ⟨x, xs, rfl⟩
          rw [hx, List.cons_append, List.head?_cons]
          have := hh (by omega)
          rw [hx] at this
          simpa using this

theorem stopOk_digit_facts (rest : List Char) (hr : stopOk rest) :
    rest.takeWhile isDigitCh = [] ∧ rest.dropWhile isDigitCh = rest := by
  cases rest with
  | nil => simp
  | cons c t =>
      rcases hr with h | h | h <;> subst h <;>
        exact ⟨by rw [List.takeWhile_cons, if_neg (by decide)],
          by rw [List.dropWhile_cons, if_neg (by decide)]⟩

theorem parseNat_natDigits (n : Nat) (rest : List Char) (hr : stopOk rest) :
    parseNat (natDigits n ++ rest) = some (n, rest) := by
  obtain ⟨hd, hl, hv, hh⟩ := natDigitsAux_spec (n + 1) n (by omega)
  rw [show natDigitsAux (n + 1) n = natDigits n from rfl] at hd hl hv hh
  have hdig : ∀ c ∈ natDigits n, isDigitCh c = true := hd
  obtain ⟨htw0, hdw0⟩ := stopOk_digit_facts rest hr
  have htw : (natDigits n ++ rest).takeWhile isDigitCh = natDigits n := by
    rw [takeWhile_all_append _ _ _ hdig, htw0, List.append_nil]
  have hdw : (natDigits n ++ rest).dropWhile isDigitCh = rest := by
    rw [dropWhile_all_append _ _ _ hdig, hdw0]
  have hlz : ¬ (2 ≤ (natDigits n).length ∧ (natDigits n).head? = some '0') := by
    by_cases hn0 : n = 0
    · subst hn0
      intro ⟨h2, _⟩
      have : natDigits 0 = ['0'] := by decide
      rw [this] at h2
      simp at h2
    · intro ⟨_, hz⟩
      exact hh (by omega) hz
  simp only [parseNat, htw, hdw]
  rw [if_neg (by
    intro hcon
    rw [List.length_eq_zero] at hcon
    rw [hcon] at hl
    simp at hl), if_neg hlz]
  cases rest with
  | nil => simp [hv]
  | cons c t =>
      rcases hr with h | h | h <;> (subst h; simp [hv]) <;> decide

theorem natDigits_ne_nil (n : Nat) : natDigits n ≠ [] := by
  obtain ⟨_, hl, _, _⟩ := natDigitsAux_spec (n + 1) n (by omega)
  rw [show natDigitsAux (n + 1) n = natDigits n from rfl] at hl
  intro hcon
  rw [hcon] at hl
  simp at hl

theorem parseNum_intToChars (i : Int) (rest : List Char) (hr : stopOk rest) :
    parseNum (intToChars i ++ rest) = some (.num i, rest) := by
  by_cases hneg : i < 0
  · rw [show intToChars i = '-' :: natDigits (-i).toNat from by
      rw [intToChars, if_pos hneg]]
    rw [List.cons_append]
    simp only [parseNum, eq_self_iff_true, if_true, parseNat_natDigits _ _ hr,
      Option.some.injEq, Prod.mk.injEq, Json.num.injEq]
    exact ⟨by omega, trivial⟩
  · rw [show intToChars i = natDigits i.toNat from by
      rw [intToChars, if_neg hneg]]
    obtain ⟨d, ds, hds⟩ : ∃ d ds, natDigits i.toNat = d :: ds := by
      cases hx : natDigits i.toNat with
      | nil => exact absurd hx (natDigits_ne_nil _)
      | cons d ds => exact ⟨d, ds, rfl⟩
    have hdig : isDigitCh d = true := by
      obtain ⟨hd, _, _, _⟩ := natDigitsAux_spec (i.toNat + 1) i.toNat (by omega)
      rw [show natDigitsAux (i.toNat + 1) i.toNat = natDigits i.toNat from rfl] at hd
      exact hd d (by rw [hds]; simp)
    have hdm : ¬ d = '-' := by
      intro hcon
      subst hcon
      simp [isDigitCh] at hdig
    rw [hds, List.cons_append]
    simp only [parseNum, if_neg hdm]
    rw [← List.cons_append, ← hds, parseNat_natDigits _ _ hr]
    simp only [Option.some.injEq, Prod.mk.injEq, Json.num.injEq]
    exact ⟨by omega, trivial⟩

/-! ## Whitespace and dispatch lemmas for the value parser -/

theorem skipWs_space (s : List Char) : skipWs (' ' :: s) = skipWs s := by
  rw [skipWs]
  rw [if_pos (Or.inl rfl)]

theorem skipWs_nonws (c : Char) (s : List Char)
    (h : ¬(c = ' ' ∨ c = Char.ofNat 9 ∨ c = Char.ofNat 10 ∨ c = Char.ofNat 13)) :
    skipWs (c :: s) = c :: s := by
  rw [skipWs, if_neg h]

theorem parseValue_ws (f : Nat) (s : List Char) :
    parseValue f (' ' :: s) = parseValue f s := by
  cases f with
  | zero => rfl
  | succ f => rw [parseValue, parseValue, skipWs_space]

theorem parseElems_ws (f : Nat) (s : List Char) :
    parseElems f (' ' :: s) = parseElems f s := by
  cases f with
  | zero => rfl
  | succ f => rw [parseElems, parseElems, parseValue_ws]

theorem parseMembers_ws (f : Nat) (s : List Char) :
    parseMembers f (' ' :: s) = parseMembers f s := by
  cases f with
  | zero => rfl
  | succ f => rw [parseMembers, parseMembers, skipWs_space]

/-- A character that can legally start a serialized JSON value: not JSON
whitespace, and not a closing bracket or brace. -/
abbrev headNice (c : Char) : Prop :=
  ¬(c = ' ' ∨ c = Char.ofNat 9 ∨ c = Char.ofNat 10 ∨ c = Char.ofNat 13) ∧
    ¬ c = ']' ∧ ¬ c = rbraceC

theorem dumpJson_head (j : Json) :
    ∃ c tl, dumpJson j = c :: tl ∧ headNice c := by
  cases j with
  | null => exact ⟨'n', _, rfl, by decide⟩
  | bool b => cases b with
      | true => exact ⟨'t', _, rfl, by decide⟩
      | false => exact ⟨'f', _, rfl, by decide⟩
  | num i =>
      by_cases hneg : i < 0
      · refine ⟨'-', natDigits (-i).toNat, ?_, by decide⟩
        rw [show dumpJson (.num i) = intToChars i from rfl, intToChars, if_pos hneg]
      · obtain ⟨d, ds, hds⟩ : ∃ d ds, natDigits i.toNat = d :: ds := by
          cases hx : natDigits i.toNat with
          | nil => exact absurd hx (natDigits_ne_nil _)
          | cons d ds => exact ⟨d, ds, rfl⟩
        have hdig : isDigitCh d = true := by
          obtain ⟨hd, _, _, _⟩ := natDigitsAux_spec (i.toNat + 1) i.toNat (by omega)
          rw [show natDigitsAux (i.toNat + 1) i.toNat = natDigits i.toNat from rfl] at hd
          exact hd d (by rw [hds]; simp)
        refine ⟨d, ds, ?_, ?_⟩
        · rw [show dumpJson (.num i) = intToChars i from rfl, intToChars, if_neg hneg, hds]
        · simp only [isDigitCh, Bool.and_eq_true, decide_eq_true_eq] at hdig
          obtain ⟨hge, hle⟩ := hdig
          refine ⟨?_, ?_, ?_⟩
          · intro hcon
            rcases hcon with rfl | rfl | rfl | rfl <;> exact absurd hge (by decide)
          · intro hcon
            subst hcon
            exact absurd hle (by decide)
          · intro hcon
            subst hcon
            exact absurd hle (by decide)
  | str s => exact ⟨quoteC, _, rfl, by decide⟩
  | arr xs => cases xs with
      | nil => exact ⟨'[', _, rfl, by decide⟩
      | cons h t => exact ⟨'[', _, rfl, by decide⟩
  | obj kvs => cases kvs with
      | nil => exact ⟨lbraceC, _, rfl, by decide⟩
      | cons k v t => exact ⟨lbraceC, _, rfl, by decide⟩

theorem dfuel_pos (j : Json) : 1 ≤ dfuel j := by
  cases j with
  | null => simp [dfuel]
  | bool b => simp [dfuel]
  | num n => simp [dfuel]
  | str s => simp [dfuel]
  | arr xs => cases xs <;> simp [dfuel]
  | obj kvs => cases kvs <;> simp [dfuel]

theorem efuel_pos (es : JList) : 1 ≤ efuel es := by
  cases es <;> simp [efuel]

theorem ofuel_pos (kvs : JObj) : 1 ≤ ofuel kvs := by
  cases kvs <;> simp [ofuel]

theorem numHead_ne (d : Char) (h : d = '-' ∨ isDigitCh d = true) :
    ¬(d = ' ' ∨ d = Char.ofNat 9 ∨ d = Char.ofNat 10 ∨ d = Char.ofNat 13) ∧
    ¬ d = quoteC ∧ ¬ d = lbraceC ∧ ¬ d = '[' ∧ ¬ d = 'n' ∧ ¬ d = 't' ∧
    ¬ d = 'f' := by
  rcases h with rfl | h
  · exact ⟨by decide, by decide, by decide, by decide, by decide, by decide, by decide⟩
  · simp only [isDigitCh, Bool.and_eq_true, decide_eq_true_eq] at h
    obtain ⟨hge, hle⟩ := h
    refine ⟨?_, ?_, ?_, ?_, ?_, ?_, ?_⟩
    · intro hcon
      rcases hcon with rfl | rfl | rfl | rfl <;> exact absurd hge (by decide)
    all_goals intro hcon; subst hcon
    · exact absurd hge (by decide)
    · exact absurd hle (by decide)
    · exact absurd hle (by decide)
    · exact absurd hle (by decide)
    · exact absurd hle (by decide)
    · exact absurd hle (by decide)

theorem intToChars_head (i : Int) :
    ∃ d tl, intToChars i = d :: tl ∧ (d = '-' ∨ isDigitCh d = true) := by
  by_cases hneg : i < 0
  · exact ⟨'-', natDigits (-i).toNat, by rw [intToChars, if_pos hneg], Or.inl rfl⟩
  · obtain ⟨d, ds, hds⟩ : ∃ d ds, natDigits i.toNat = d :: ds := by
      cases hx : natDigits i.toNat with
      | nil => exact absurd hx (natDigits_ne_nil _)
      | cons d ds => exact ⟨d, ds, rfl⟩
    have hdig : isDigitCh d = true := by
      obtain ⟨hd, _, _, _⟩ := natDigitsAux_spec (i.toNat + 1) i.toNat (by omega)
      rw [show natDigitsAux (i.toNat + 1) i.toNat = natDigits i.toNat from rfl] at hd
      exact hd d (by rw [hds]; simp)
    exact ⟨d, ds, by rw [intToChars, if_neg hneg, hds], Or.inr hdig⟩

theorem dumpElems_head (h : Json) (t : JList) :
    ∃ c tl, dumpElems (.cons h t) = c :: tl ∧ headNice c := by
  obtain ⟨c, tl0, hc, hn⟩ := dumpJson_head h
  cases t with
  | nil =>
      exact ⟨c, tl0, by rw [show dumpElems (.cons h .nil) = dumpJson h from rfl, hc], hn⟩
  | cons h2 t2 =>
      refine ⟨c, tl0 ++ ',' :: ' ' :: dumpElems (.cons h2 t2), ?_, hn⟩
      rw [show dumpElems (.cons h (.cons h2 t2)) =
        dumpJson h ++ ',' :: ' ' :: dumpElems (.cons h2 t2) from rfl, hc, List.cons_append]

mutual
theorem parseValue_dump (j : Json) : ∀ (f : Nat) (rest : List Char),
    dfuel j ≤ f → stopOk rest →
    parseValue f (dumpJson j ++ rest) = some (j, rest) := by
  intro f rest hf hr
  obtain ⟨f', rfl⟩ : ∃ f', f = f' + 1 := ⟨f - 1, by have := dfuel_pos j; omega⟩
  cases j with
  | null =>
      rw [show dumpJson .null = 'n' :: 'u' :: 'l' :: 'l' :: [] from rfl,
        parseValue, List.cons_append, skipWs_nonws _ _ (by decide)]
      simp +decide only [if_neg, if_pos, List.cons_append, List.nil_append]
  | bool b =>
      cases b with
      | true =>
          rw [show dumpJson (.bool true) = 't' :: 'r' :: 'u' :: 'e' :: [] from rfl,
            parseValue, List.cons_append, skipWs_nonws _ _ (by decide)]
          simp +decide only [if_neg, if_pos, List.cons_append, List.nil_append]
      | false =>
          rw [show dumpJson (.bool false) = 'f' :: 'a' :: 'l' :: 's' :: 'e' :: [] from rfl,
            parseValue, List.cons_append, skipWs_nonws _ _ (by decide)]
          simp +decide only [if_neg, if_pos, List.cons_append, List.nil_append]
  | num i =>
      obtain ⟨d, tl, hdt, hdor⟩ := intToChars_head i
      obtain ⟨hws, hq, hlb, hbr, hn, ht, hfc⟩ := numHead_ne d hdor
      rw [show dumpJson (.num i) = intToChars i from rfl, hdt, List.cons_append,
        parseValue, skipWs_nonws _ _ hws]
      simp only [if_neg hq, if_neg hlb, if_neg hbr, if_neg hn, if_neg ht, if_neg hfc]
      rw [← List.cons_append, ← hdt, parseNum_intToChars i rest hr]
  | str s =>
      rw [show dumpJson (.str s) = quoteC :: (escBody s ++ [quoteC]) from rfl,
        List.cons_append, parseValue, skipWs_nonws _ _ (by decide)]
      simp only [eq_self_iff_true, if_true]
      rw [List.append_assoc]
      rw [show ([quoteC] : List Char) ++ rest = quoteC :: rest from rfl]
      rw [parseStrBody_escBody s _ rest (by simp [List.length_append])]
  | arr xs =>
      cases xs with
      | nil =>
          rw [show dumpJson (.arr .nil) = '[' :: [']'] from rfl, List.cons_append,
            parseValue, skipWs_nonws _ _ (by decide)]
          simp only [if_neg (by decide : ¬ ('[' : Char) = quoteC),
            if_neg (by decide : ¬ ('[' : Char) = lbraceC), eq_self_iff_true, if_true,
            List.cons_append, List.nil_append]
          rw [skipWs_nonws _ _ (by decide)]
          simp only [eq_self_iff_true, if_true]
      | cons h t =>
          rw [show dumpJson (.arr (.cons h t)) =
            '[' :: (dumpElems (.cons h t) ++ [']']) from rfl, List.cons_append,
            parseValue, skipWs_nonws _ _ (by decide)]
          simp only [if_neg (by decide : ¬ ('[' : Char) = quoteC),
            if_neg (by decide : ¬ ('[' : Char) = lbraceC), eq_self_iff_true, if_true]
          rw [List.append_assoc]
          rw [show ([']'] : List Char) ++ rest = ']' :: rest from rfl]
          obtain ⟨c0, tl0, hc0, hn0⟩ := dumpElems_head h t
          rw [hc0, List.cons_append, skipWs_nonws _ _ hn0.1]
          simp only [if_neg hn0.2.1]
          rw [← List.cons_append, ← hc0,
            parseElems_dump (.cons h t) f' rest (by intro hcon; exact JList.noConfusion hcon)
              (by simp only [dfuel] at hf; omega)]
  | obj kvs =>
      cases kvs with
      | nil =>
          rw [show dumpJson (.obj .nil) = lbraceC :: [rbraceC] from rfl, List.cons_append,
            parseValue, skipWs_nonws _ _ (by decide)]
          simp only [if_neg (by decide : ¬ lbraceC = quoteC), eq_self_iff_true, if_true,
            List.cons_append, List.nil_append]
          rw [skipWs_nonws _ _ (by decide)]
          simp only [eq_self_iff_true, if_true]
      | cons k v t =>
          rw [show dumpJson (.obj (.cons k v t)) =
            lbraceC :: (dumpMembers (.cons k v t) ++ [rbraceC]) from rfl, List.cons_append,
            parseValue, skipWs_nonws _ _ (by decide)]
          simp only [if_neg (by decide : ¬ lbraceC = quoteC), eq_self_iff_true, if_true]
          rw [List.append_assoc]
          rw [show ([rbraceC] : List Char) ++ rest = rbraceC :: rest from rfl]
          have hmh : ∃ tl0, dumpMembers (.cons k v t) = quoteC :: tl0 := by
            cases t with
            | nil => exact ⟨escBody k ++ [quoteC] ++ ':' :: ' ' :: dumpJson v, by
                rw [show dumpMembers (.cons k v .nil) =
                  quoteStr k ++ ':' :: ' ' :: dumpJson v from rfl, quoteStr]
                simp [List.append_assoc]⟩
            | cons k2 v2 t2 => exact ⟨escBody k ++ [quoteC] ++ ':' :: ' ' :: dumpJson v ++
                ',' :: ' ' :: dumpMembers (.cons k2 v2 t2), by
                rw [show dumpMembers (.cons k v (.cons k2 v2 t2)) =
                  quoteStr k ++ ':' :: ' ' :: dumpJson v ++
                    ',' :: ' ' :: dumpMembers (.cons k2 v2 t2) from rfl, quoteStr]
                simp [List.append_assoc]⟩
          obtain ⟨tl0, htl0⟩ := hmh
          rw [htl0, List.cons_append, skipWs_nonws _ _ (by decide)]
          simp only [if_neg (by decide : ¬ quoteC = rbraceC)]
          rw [← List.cons_append, ← htl0,
            parseMembers_dump (.cons k v t) f' rest (by intro hcon; exact JObj.noConfusion hcon)
              (by simp only [dfuel] at hf; omega)]
termination_by sizeOf j

theorem parseElems_dump (es : JList) : ∀ (f : Nat) (rest : List Char),
    es ≠ .nil → efuel es ≤ f →
    parseElems f (dumpElems es ++ ']' :: rest) = some (es, rest) := by
  intro f rest hne hf
  cases es with
  | nil => exact absurd rfl hne
  | cons h t =>
      obtain ⟨f', rfl⟩ : ∃ f', f = f' + 1 :=
        ⟨f - 1, by have := efuel_pos (.cons h t); omega⟩
      rw [parseElems]
      cases t with
      | nil =>
          rw [show dumpElems (.cons h .nil) = dumpJson h from rfl]
          simp only [parseValue_dump h f' (']' :: rest)
              (by simp only [efuel] at hf; omega)
              (by exact Or.inr (Or.inl rfl)),
            skipWs_nonws ']' rest (by decide),
            if_neg (by decide : ¬ (']' : Char) = ','), eq_self_iff_true, if_true]
      | cons h2 t2 =>
          rw [show dumpElems (.cons h (.cons h2 t2)) =
            dumpJson h ++ ',' :: ' ' :: dumpElems (.cons h2 t2) from rfl]
          rw [List.append_assoc]
          rw [show (',' :: ' ' :: dumpElems (.cons h2 t2)) ++ ']' :: rest =
            ',' :: ' ' :: (dumpElems (.cons h2 t2) ++ ']' :: rest) from by
            simp [List.cons_append]]
          simp only [parseValue_dump h f'
              (',' :: ' ' :: (dumpElems (.cons h2 t2) ++ ']' :: rest))
              (by simp only [efuel] at hf; omega) (by exact Or.inl rfl),
            skipWs_nonws ',' (' ' :: (dumpElems (.cons h2 t2) ++ ']' :: rest)) (by decide),
            eq_self_iff_true, if_true]
          rw [parseElems_ws,
            parseElems_dump (.cons h2 t2) f' rest (by intro hcon; exact JList.noConfusion hcon)
              (by simp only [efuel] at hf ⊢; omega)]
termination_by sizeOf es

theorem parseMembers_dump (kvs : JObj) : ∀ (f : Nat) (rest : List Char),
    kvs ≠ .nil → ofuel kvs ≤ f →
    parseMembers f (dumpMembers kvs ++ rbraceC :: rest) = some (kvs, rest) := by
  intro f rest hne hf
  cases kvs with
  | nil => exact absurd rfl hne
  | cons k v t =>
      obtain ⟨f', rfl⟩ : ∃ f', f = f' + 1 :=
        ⟨f - 1, by have := ofuel_pos (.cons k v t); omega⟩
      rw [parseMembers]
      cases t with
      | nil =>
          rw [show dumpMembers (.cons k v .nil) =
            quoteStr k ++ ':' :: ' ' :: dumpJson v from rfl, quoteStr]
          rw [show ((quoteC :: escBody k ++ [quoteC]) ++ ':' :: ' ' :: dumpJson v) ++
              rbraceC :: rest =
            quoteC :: (escBody k ++ quoteC ::
              (':' :: ' ' :: (dumpJson v ++ rbraceC :: rest))) from by
            simp [List.cons_append, List.append_assoc]]
          rw [skipWs_nonws _ _ (by decide)]
          have hstr := parseStrBody_escBody k
            ((escBody k ++ quoteC :: (':' :: ' ' :: (dumpJson v ++ rbraceC :: rest))).length)
            (':' :: ' ' :: (dumpJson v ++ rbraceC :: rest))
            (by simp [List.length_append])
          simp only [eq_self_iff_true, if_true, hstr,
            skipWs_nonws ':' (' ' :: (dumpJson v ++ rbraceC :: rest)) (by decide)]
          rw [parseValue_ws,
            parseValue_dump v f' (rbraceC :: rest)
              (by simp only [ofuel] at hf; omega) (by exact Or.inr (Or.inr rfl))]
          simp only [skipWs_nonws rbraceC rest (by decide),
            if_neg (by decide : ¬ rbraceC = ','), eq_self_iff_true, if_true]
      | cons k2 v2 t2 =>
          rw [show dumpMembers (.cons k v (.cons k2 v2 t2)) =
            quoteStr k ++ ':' :: ' ' :: dumpJson v ++
              ',' :: ' ' :: dumpMembers (.cons k2 v2 t2) from rfl, quoteStr]
          rw [show (((quoteC :: escBody k ++ [quoteC]) ++ ':' :: ' ' :: dumpJson v ++
              ',' :: ' ' :: dumpMembers (.cons k2 v2 t2))) ++ rbraceC :: rest =
            quoteC :: (escBody k ++ quoteC ::
              (':' :: ' ' :: (dumpJson v ++
                ',' :: ' ' :: (dumpMembers (.cons k2 v2 t2) ++ rbraceC :: rest)))) from by
            simp [List.cons_append, List.append_assoc]]
          rw [skipWs_nonws _ _ (by decide)]
          have hstr := parseStrBody_escBody k
            ((escBody k ++ quoteC :: (':' :: ' ' :: (dumpJson v ++
              ',' :: ' ' :: (dumpMembers (.cons k2 v2 t2) ++ rbraceC :: rest)))).length)
            (':' :: ' ' :: (dumpJson v ++
              ',' :: ' ' :: (dumpMembers (.cons k2 v2 t2) ++ rbraceC :: rest)))
            (by simp [List.length_append])
          simp only [eq_self_iff_true, if_true, hstr,
            skipWs_nonws ':' (' ' :: (dumpJson v ++
              ',' :: ' ' :: (dumpMembers (.cons k2 v2 t2) ++ rbraceC :: rest))) (by decide)]
          rw [parseValue_ws,
            parseValue_dump v f'
              (',' :: ' ' :: (dumpMembers (.cons k2 v2 t2) ++ rbraceC :: rest))
              (by simp only [ofuel] at hf; omega) (by exact Or.inl rfl)]
          simp only [skipWs_nonws ','
              (' ' :: (dumpMembers (.cons k2 v2 t2) ++ rbraceC :: rest)) (by decide),
            eq_self_iff_true, if_true]
          rw [parseMembers_ws,
            parseMembers_dump (.cons k2 v2 t2) f' rest
              (by intro hcon; exact JObj.noConfusion hcon)
              (by simp only [ofuel] at hf ⊢; omega)]
termination_by sizeOf kvs
end


/-! ## `json.dumps` output is ASCII; fuel bound for `jsonParse` -/

theorem hexDigit_ascii : ∀ d : Fin 16, (hexDigit d.val).toNat < 128 := by decide

theorem hex4_ascii (n : Nat) : ∀ c ∈ hex4 n, c.toNat < 128 := by
  intro c hc
  simp only [hex4, List.mem_cons, List.mem_singleton] at hc
  rcases hc with rfl | rfl | rfl | rfl | h
  · exact hexDigit_ascii ⟨n / 4096 % 16, by omega⟩
  · exact hexDigit_ascii ⟨n / 256 % 16, by omega⟩
  · exact hexDigit_ascii ⟨n / 16 % 16, by omega⟩
  · exact hexDigit_ascii ⟨n % 16, by omega⟩
  · simp at h

theorem escChar_ascii (c : Char) : ∀ d ∈ escChar c, d.toNat < 128 := by
  intro d hd
  by_cases h1 : c = quoteC
  · subst h1
    rw [show escChar quoteC = [backslashC, quoteC] from by decide] at hd
    simp only [List.mem_cons, List.not_mem_nil, or_false] at hd
    rcases hd with rfl | rfl <;> decide
  · by_cases h2 : c = backslashC
    · subst h2
      rw [show escChar backslashC = [backslashC, backslashC] from by decide] at hd
      simp only [List.mem_cons, List.not_mem_nil, or_false] at hd
      rcases hd with rfl | rfl <;> decide
    · by_cases h3 : c = Char.ofNat 8
      · subst h3
        rw [show escChar (Char.ofNat 8) = [backslashC, 'b'] from by decide] at hd
        simp only [List.mem_cons, List.not_mem_nil, or_false] at hd
        rcases hd with rfl | rfl <;> decide
      · by_cases h4 : c = Char.ofNat 9
        · subst h4
          rw [show escChar (Char.ofNat 9) = [backslashC, 't'] from by decide] at hd
          simp only [List.mem_cons, List.not_mem_nil, or_false] at hd
          rcases hd with rfl | rfl <;> decide
        · by_cases h5 : c = Char.ofNat 10
          · subst h5
            rw [show escChar (Char.ofNat 10) = [backslashC, 'n'] from by decide] at hd
            simp only [List.mem_cons, List.not_mem_nil, or_false] at hd
            rcases hd with rfl | rfl <;> decide
          · by_cases h6 : c = Char.ofNat 12
            · subst h6
              rw [show escChar (Char.ofNat 12) = [backslashC, 'f'] from by decide] at hd
              simp only [List.mem_cons, List.not_mem_nil, or_false] at hd
              rcases hd with rfl | rfl <;> decide
            · by_cases h7 : c = Char.ofNat 13
              · subst h7
                rw [show escChar (Char.ofNat 13) = [backslashC, 'r'] from by decide] at hd
                simp only [List.mem_cons, List.not_mem_nil, or_false] at hd
                rcases hd with rfl | rfl <;> decide
              · by_cases hp : 32 ≤ c.toNat ∧ c.toNat ≤ 126
                · rw [show escChar c = [c] from by
                    unfold escChar
                    rw [if_neg h1, if_neg h2, if_neg h3, if_neg h4, if_neg h5,
                      if_neg h6, if_neg h7, if_pos hp]] at hd
                  simp only [List.mem_singleton] at hd
                  subst hd
                  omega
                · by_cases hbmp : c.toNat < 65536
                  · rw [show escChar c = backslashC :: 'u' :: hex4 c.toNat from by
                      unfold escChar
                      rw [if_neg h1, if_neg h2, if_neg h3, if_neg h4, if_neg h5,
                        if_neg h6, if_neg h7, if_neg hp, if_pos hbmp]] at hd
                    simp only [List.mem_cons] at hd
                    rcases hd with rfl | rfl | hd
                    · decide
                    · decide
                    · exact hex4_ascii _ d hd
                  · rw [show escChar c = backslashC :: 'u' ::
                        hex4 (55296 + (c.toNat - 65536) / 1024) ++
                        (backslashC :: 'u' :: hex4 (56320 + (c.toNat - 65536) % 1024)) from by
                      unfold escChar
                      rw [if_neg h1, if_neg h2, if_neg h3, if_neg h4, if_neg h5,
                        if_neg h6, if_neg h7, if_neg hp, if_neg hbmp]] at hd
                    simp only [List.cons_append, List.mem_cons, List.mem_append] at hd
                    rcases hd with rfl | rfl | hd | rfl | rfl | hd
                    · decide
                    · decide
                    · exact hex4_ascii _ d hd
                    · decide
                    · decide
                    · exact hex4_ascii _ d hd

theorem escBody_ascii (s : List Char) : ∀ d ∈ escBody s, d.toNat < 128 := by
  induction s with
  | nil => intro d hd; simp [escBody] at hd
  | cons c t ih =>
      intro d hd
      rw [show escBody (c :: t) = escChar c ++ escBody t from rfl, List.mem_append] at hd
      rcases hd with hd | hd
      · exact escChar_ascii c d hd
      · exact ih d hd

theorem quoteStr_ascii (s : List Char) : ∀ d ∈ quoteStr s, d.toNat < 128 := by
  intro d hd
  rw [quoteStr] at hd
  simp only [List.mem_append, List.mem_cons, List.not_mem_nil, or_false] at hd
  rcases hd with (rfl | hd) | rfl
  · decide
  · exact escBody_ascii s d hd
  · decide

theorem intToChars_ascii (i : Int) : ∀ d ∈ intToChars i, d.toNat < 128 := by
  intro d hd
  have hdig : ∀ n : Nat, ∀ c ∈ natDigits n, c.toNat < 128 := by
    intro n c hc
    obtain ⟨hall, _, _, _⟩ := natDigitsAux_spec (n + 1) n (by omega)
    rw [show natDigitsAux (n + 1) n = natDigits n from rfl] at hall
    have := hall c hc
    simp only [isDigitCh, Bool.and_eq_true, decide_eq_true_eq] at this
    omega
  rw [intToChars] at hd
  split at hd
  · rw [List.mem_cons] at hd
    rcases hd with rfl | hd
    · decide
    · exact hdig _ d hd
  · exact hdig _ d hd

mutual
theorem dumpJson_ascii (j : Json) : ∀ d ∈ dumpJson j, d.toNat < 128 := by
  intro d hd
  cases j with
  | null =>
      rw [show dumpJson .null = 'n' :: 'u' :: 'l' :: 'l' :: [] from rfl] at hd
      simp only [List.mem_cons, List.not_mem_nil, or_false] at hd
      rcases hd with rfl | rfl | rfl | rfl <;> decide
  | bool b =>
      cases b with
      | true =>
          rw [show dumpJson (.bool true) = 't' :: 'r' :: 'u' :: 'e' :: [] from rfl] at hd
          simp only [List.mem_cons, List.not_mem_nil, or_false] at hd
          rcases hd with rfl | rfl | rfl | rfl <;> decide
      | false =>
          rw [show dumpJson (.bool false) = 'f' :: 'a' :: 'l' :: 's' :: 'e' :: [] from rfl] at hd
          simp only [List.mem_cons, List.not_mem_nil, or_false] at hd
          rcases hd with rfl | rfl | rfl | rfl | rfl <;> decide
  | num i => exact intToChars_ascii i d hd
  | str s => exact quoteStr_ascii s d hd
  | arr xs =>
      cases xs with
      | nil =>
          rw [show dumpJson (.arr .nil) = '[' :: [']'] from rfl] at hd
          simp only [List.mem_cons, List.not_mem_nil, or_false] at hd
          rcases hd with rfl | rfl <;> decide
      | cons h t =>
          rw [show dumpJson (.arr (.cons h t)) =
            '[' :: (dumpElems (.cons h t) ++ [']']) from rfl] at hd
          simp only [List.mem_cons, List.mem_append, List.not_mem_nil, or_false] at hd
          rcases hd with rfl | hd | rfl
          · decide
          · exact dumpElems_ascii (.cons h t) d hd
          · decide
  | obj kvs =>
      cases kvs with
      | nil =>
          rw [show dumpJson (.obj .nil) = lbraceC :: [rbraceC] from rfl] at hd
          simp only [List.mem_cons, List.not_mem_nil, or_false] at hd
          rcases hd with rfl | rfl <;> decide
      | cons k v t =>
          rw [show dumpJson (.obj (.cons k v t)) =
            lbraceC :: (dumpMembers (.cons k v t) ++ [rbraceC]) from rfl] at hd
          simp only [List.mem_cons, List.mem_append, List.not_mem_nil, or_false] at hd
          rcases hd with rfl | hd | rfl
          · decide
          · exact dumpMembers_ascii (.cons k v t) d hd
          · decide
termination_by sizeOf j

theorem dumpElems_ascii (es : JList) : ∀ d ∈ dumpElems es, d.toNat < 128 := by
  intro d hd
  cases es with
  | nil => rw [show dumpElems .nil = [] from rfl] at hd; simp at hd
  | cons h t =>
      cases t with
      | nil =>
          rw [show dumpElems (.cons h .nil) = dumpJson h from rfl] at hd
          exact dumpJson_ascii h d hd
      | cons h2 t2 =>
          rw [show dumpElems (.cons h (.cons h2 t2)) =
            dumpJson h ++ ',' :: ' ' :: dumpElems (.cons h2 t2) from rfl] at hd
          simp only [List.mem_append, List.mem_cons] at hd
          rcases hd with hd | rfl | rfl | hd
          · exact dumpJson_ascii h d hd
          · decide
          · decide
          · exact dumpElems_ascii (.cons h2 t2) d hd
termination_by sizeOf es

theorem dumpMembers_ascii (kvs : JObj) : ∀ d ∈ dumpMembers kvs, d.toNat < 128 := by
  intro d hd
  cases kvs with
  | nil => rw [show dumpMembers .nil = [] from rfl] at hd; simp at hd
  | cons k v t =>
      cases t with
      | nil =>
          rw [show dumpMembers (.cons k v .nil) =
            quoteStr k ++ ':' :: ' ' :: dumpJson v from rfl] at hd
          simp only [List.mem_append, List.mem_cons] at hd
          rcases hd with hd | rfl | rfl | hd
          · exact quoteStr_ascii k d hd
          · decide
          · decide
          · exact dumpJson_ascii v d hd
      | cons k2 v2 t2 =>
          rw [show dumpMembers (.cons k v (.cons k2 v2 t2)) =
            quoteStr k ++ ':' :: ' ' :: dumpJson v ++
              ',' :: ' ' :: dumpMembers (.cons k2 v2 t2) from rfl] at hd
          simp only [List.mem_append, List.mem_cons] at hd
          rcases hd with (hd | rfl | rfl | hd) | rfl | rfl | hd
          · exact quoteStr_ascii k d hd
          · decide
          · decide
          · exact dumpJson_ascii v d hd
          · decide
          · decide
          · exact dumpMembers_ascii (.cons k2 v2 t2) d hd
termination_by sizeOf kvs
end

theorem dumpJson_len_pos (j : Json) : 1 ≤ (dumpJson j).length := by
  obtain ⟨c, tl, hc, _⟩ := dumpJson_head j
  rw [hc]
  simp

mutual
theorem dfuel_le_len (j : Json) : dfuel j ≤ (dumpJson j).length := by
  cases j with
  | null => simp [dfuel, dumpJson]
  | bool b => cases b <;> simp [dfuel, dumpJson]
  | num i =>
      have := dumpJson_len_pos (.num i)
      simp only [dfuel]
      omega
  | str s =>
      have := dumpJson_len_pos (.str s)
      simp only [dfuel]
      omega
  | arr xs =>
      cases xs with
      | nil => simp [dfuel, dumpJson]
      | cons h t =>
          have h1 := efuel_le_len (.cons h t)
          rw [show dumpJson (.arr (.cons h t)) =
            '[' :: (dumpElems (.cons h t) ++ [']']) from rfl]
          simp only [dfuel, List.length_cons, List.length_append, List.length_singleton]
          omega
  | obj kvs =>
      cases kvs with
      | nil => simp [dfuel, dumpJson]
      | cons k v t =>
          have h1 := ofuel_le_len (.cons k v t)
          rw [show dumpJson (.obj (.cons k v t)) =
            lbraceC :: (dumpMembers (.cons k v t) ++ [rbraceC]) from rfl]
          simp only [dfuel, List.length_cons, List.length_append, List.length_singleton]
          omega
termination_by sizeOf j

theorem efuel_le_len (es : JList) : efuel es ≤ (dumpElems es).length + 1 := by
  cases es with
  | nil => simp [efuel, dumpElems]
  | cons h t =>
      cases t with
      | nil =>
          have h1 := dfuel_le_len h
          have h2 := dumpJson_len_pos h
          rw [show dumpElems (.cons h .nil) = dumpJson h from rfl]
          simp only [efuel]
          omega
      | cons h2 t2 =>
          have hh1 := dfuel_le_len h
          have hh2 := efuel_le_len (.cons h2 t2)
          rw [show dumpElems (.cons h (.cons h2 t2)) =
            dumpJson h ++ ',' :: ' ' :: dumpElems (.cons h2 t2) from rfl,
            show efuel (.cons h (.cons h2 t2)) =
              1 + max (dfuel h) (efuel (.cons h2 t2)) from rfl]
          simp only [List.length_append, List.length_cons]
          omega
termination_by sizeOf es

theorem ofuel_le_len (kvs : JObj) : ofuel kvs ≤ (dumpMembers kvs).length + 1 := by
  cases kvs with
  | nil => simp [ofuel, dumpMembers]
  | cons k v t =>
      cases t with
      | nil =>
          have h1 := dfuel_le_len v
          rw [show dumpMembers (.cons k v .nil) =
            quoteStr k ++ ':' :: ' ' :: dumpJson v from rfl]
          simp only [ofuel, List.length_append, List.length_cons]
          omega
      | cons k2 v2 t2 =>
          have hh1 := dfuel_le_len v
          have hh2 := ofuel_le_len (.cons k2 v2 t2)
          rw [show dumpMembers (.cons k v (.cons k2 v2 t2)) =
            quoteStr k ++ ':' :: ' ' :: dumpJson v ++
              ',' :: ' ' :: dumpMembers (.cons k2 v2 t2) from rfl,
            show ofuel (.cons k v (.cons k2 v2 t2)) =
              1 + max (dfuel v) (ofuel (.cons k2 v2 t2)) from rfl]
          simp only [List.length_append, List.length_cons]
          omega
termination_by sizeOf kvs
end

/-- `json.loads` inverts `json.dumps` on every JSON value of the model. -/
theorem jsonParse_dumpJson (j : Json) : jsonParse (dumpJson j) = some j := by
  rw [jsonParse]
  have h1 : parseValue (dumpJson j).length (dumpJson j ++ []) = some (j, []) :=
    parseValue_dump j _ [] (dfuel_le_len j) trivial
  rw [List.append_nil] at h1
  rw [h1]
  rfl

theorem asciiDecode_map (cs : List Char) (h : ∀ c ∈ cs, c.toNat < 128) :
    asciiDecode (cs.map Char.toNat) = some cs := by
  induction cs with
  | nil => rfl
  | cons c t ih =>
      rw [List.map_cons, asciiDecode, if_pos (h c (by simp)),
        ih (fun d hd => h d (by simp [hd])), Char.ofNat_toNat]

/-- The full segment-decode step of `decode_jwt` inverts
base64url-encoding-of-`json.dumps` for every JSON value of the model. -/
theorem decodeSegment_dump (j : Json) :
    decodeSegment (b64urlEncode ((dumpJson j).map Char.toNat)) = some j := by
  have hb : ∀ b ∈ (dumpJson j).map Char.toNat, b < 256 := by
    intro b hb
    simp only [List.mem_map] at hb
    obtain ⟨c, hc, rfl⟩ := hb
    have := dumpJson_ascii j c hc
    omega
  simp only [decodeSegment, b64url_roundtrip _ hb,
    asciiDecode_map _ (dumpJson_ascii j), jsonParse_dumpJson j]

/-! ## Claim theorems -/

/-- C4: Round-trip — for every JSON object of the model, base64url-encoding
its `json.dumps` serialization and running the tool's segment-decode step
(pad with `=` to a multiple of 4, base64url-decode, UTF-8-decode,
`json.loads`) reproduces that exact object, for any resulting segment
length. -/
theorem C4_roundtrip (j : Json) :
    decodeSegment (b64urlEncode ((dumpJson j).map Char.toNat)) = some j :=
  decodeSegment_dump j

/-- C9: the padding step appends between one and four `=` characters, and
exactly four (not zero) when the segment length is already a multiple of 4;
decoding of aligned encoder outputs still succeeds because the modelled
decoder tolerates the excess padding. -/
theorem C9_padding :
    (∀ seg : List Char, 1 ≤ padLen seg ∧ padLen seg ≤ 4 ∧
      (seg.length % 4 = 0 → padLen seg = 4)) ∧
    (∀ bs : List Nat, (∀ b ∈ bs, b < 256) → (b64urlEncode bs).length % 4 = 0 →
      b64decodePadded (jwtPad (b64urlEncode bs)) = some bs) := by
  constructor
  · intro seg
    have h4 : seg.length % 4 < 4 := by omega
    refine ⟨?_, ?_, ?_⟩ <;> simp [padLen] <;> omega
  · intro bs hb _
    exact b64url_roundtrip bs hb

/-- C9 witness: the aligned segment `YWJj` (4 characters, the encoding of
the bytes of `abc`) receives exactly 4 pad characters and still decodes. -/
theorem C9_padding_witness :
    padLen ("YWJj".toList) = 4 ∧
    b64decodePadded (jwtPad (b64urlEncode [97, 98, 99])) = some [97, 98, 99] := by
  constructor
  · decide
  · exact C9_padding.2 [97, 98, 99] (by decide) (by decide)

/-- The `jwt_payload.json` content produced by `decode_jwt` does not depend
on the verbose flag. -/
theorem decode_jwt_file_indep (tok : List Char) (v1 v2 : Bool) :
    (decode_jwt tok v1).payloadFile = (decode_jwt tok v2).payloadFile := by
  unfold decode_jwt
  cases hs : splitDots tok with
  | nil => rfl
  | cons p0 rest =>
      cases rest with
      | nil => rfl
      | cons p1 rest2 =>
          cases rest2 with
          | nil => rfl
          | cons p2 rest3 =>
              cases rest3 with
              | nil =>
                  rcases h0 : decodeSegment p0 with _ | header
                  · simp [h0]
                  · rcases h1 : decodeSegment p1 with _ | payload <;> simp [h0, h1]
              | cons _ _ => rfl

/-- C10: the verbose flag influences no persisted output — on identical
inputs, the contents of `jwt_token.txt` and `jwt_payload.json` are the same
with and without `-v`; verbosity changes only what is printed. -/
theorem C10_verbose_no_effect_on_files (inp : RunInput) :
    (verify_evidence_run inp true).jwtTokenFile =
      (verify_evidence_run inp false).jwtTokenFile ∧
    (verify_evidence_run inp true).jwtPayloadFile =
      (verify_evidence_run inp false).jwtPayloadFile := by
  unfold verify_evidence_run afterLoad
  rcases hev : inp.evidenceFile with _ | _ | j
  · simp
  · simp
  · rcases j with _ | b | n | s | xs | kvs
    · simp
    · simp
    · simp
    · simp
    · simp
    · rcases hlk : objLookup ("evidence".toList) kvs with _ | ev
      · simp at hlk
        simp [hlk]
      · simp at hlk
        rcases hlen : evLen ev with _ | n
        · simp [hlk, hlen]
        · rcases hrsp : inp.response with _ | r
          · simp [hlk, hlen, hrsp]
          · by_cases h200 : r.statusCode = 200
            · simp [hlk, hlen, hrsp, h200, decode_jwt_file_indep r.text true false]
            · simp [hlk, hlen, hrsp, h200]

/-- C1 counterexample: a three-segment token whose header segment is the
base64url encoding of `notjson` (valid base64, invalid JSON).  The header
decode fails, the payload segment `e30` (`\x7b\x7d`) would decode fine on
its own, yet `jwt_payload.json` is NOT written — contradicting the claim
that the payload is still decoded and written when the header fails. -/
theorem C1_counterexample :
    splitDots ("bm90anNvbg.e30.s".toList) =
      [("bm90anNvbg".toList), ("e30".toList), 's' :: []] ∧
    decodeSegment ("bm90anNvbg".toList) = none ∧
    decodeSegment ("e30".toList) = some (.obj .nil) ∧
    (decode_jwt ("bm90anNvbg.e30.s".toList) false).payloadFile = none := by
  refine ⟨by decide, by decide, by decide, by decide⟩

/-- C1 (amended): both segment decodes sit in one shared `try` (source
lines 119-218), so a decoding failure of the header segment jumps to the
shared handler: the payload segment is not decoded, the decoded-payload
file is not written, and the only output is the shared failure line. -/
theorem C1_single_guard (tok : List Char) (verbose : Bool)
    (p0 p1 p2 : List Char) (hs : splitDots tok = [p0, p1, p2])
    (hdr : decodeSegment p0 = none) :
    decode_jwt tok verbose = ⟨[.decodeJwtFailed], none⟩ := by
  unfold decode_jwt
  rw [hs]
  simp [hdr]

/-- C1 witness: the amended theorem applied to the counterexample token. -/
theorem C1_single_guard_witness :
    decode_jwt ("bm90anNvbg.e30.s".toList) false = ⟨[.decodeJwtFailed], none⟩ :=
  C1_single_guard _ false ("bm90anNvbg".toList) ("e30".toList) ('s' :: [])
    (by decide) (by decide)

/-- C2 counterexample: a run whose HTTP 200 body `ab` is not a
three-segment token.  The tool prints the invalid-format line but falls
off the end of `verify_evidence` normally: exit code 0, and the raw body
is even saved to `jwt_token.txt` — contradicting the claimed non-zero
exit on parse failure. -/
theorem C2_counterexample :
    verify_evidence_run
      ⟨.json (.obj (.cons ("evidence".toList) (.str ('A' :: [])) .nil)),
        ("tapp".toList), [], [], [], [], some ⟨200, ("ab".toList)⟩⟩ false =
    ⟨0, true, some ("ab".toList), none,
      [.readEvidence, .evidenceLen 1, .usePolicyId ("tapp".toList),
        .sendingRequest, .httpStatus 200, .verifySucceeded,
        .invalidJwtFormat, .tokenSaved]⟩ := by decide

/-- C2 (amended): every run that reaches token decoding (evidence loaded,
response received with status 200) terminates with exit code 0 and writes
`jwt_token.txt` — token-format and segment-decode failures are reported but
non-fatal, matching the recovery policy of the error-handling design
(`decode_jwt` returns instead of calling `sys.exit`). -/
theorem C2_parse_failures_nonfatal (inp : RunInput) (verbose : Bool)
    (kvs : JObj) (ev : Json) (n : Nat) (r : Response)
    (hev : inp.evidenceFile = .json (.obj kvs))
    (hlk : objLookup ("evidence".toList) kvs = some ev)
    (hlen : evLen ev = some n)
    (hrsp : inp.response = some r) (h200 : r.statusCode = 200) :
    (verify_evidence_run inp verbose).exitCode = 0 ∧
    (verify_evidence_run inp verbose).jwtTokenFile = some r.text := by
  unfold verify_evidence_run afterLoad
  rw [hev]
  simp at hlk
  simp [hlk, hlen, hrsp, h200]

/-- C2 witness: the amended theorem applied to the counterexample run. -/
theorem C2_parse_failures_nonfatal_witness :
    (verify_evidence_run
      ⟨.json (.obj (.cons ("evidence".toList) (.str ('A' :: [])) .nil)),
        ("tapp".toList), [], [], [], [], some ⟨200, ("ab".toList)⟩⟩ false).exitCode = 0 ∧
    (verify_evidence_run
      ⟨.json (.obj (.cons ("evidence".toList) (.str ('A' :: [])) .nil)),
        ("tapp".toList), [], [], [], [], some ⟨200, ("ab".toList)⟩⟩ false).jwtTokenFile =
      some ("ab".toList) :=
  C2_parse_failures_nonfatal _ false _ (.str ('A' :: [])) 1 ⟨200, ("ab".toList)⟩
    rfl (by decide) (by decide) rfl rfl

/-- C3 counterexample: an evidence file whose `evidence` field is the empty
string.  The `KeyError` guard does not fire, the request is sent
(`networkCalled = true`) and the run completes with exit code 0 —
contradicting the claimed fatal input error. -/
theorem C3_counterexample :
    (verify_evidence_run
      ⟨.json (.obj (.cons ("evidence".toList) (.str []) .nil)),
        ("tapp".toList), [], [], [], [], some ⟨200, ("e30.e30.s".toList)⟩⟩
      false).networkCalled = true ∧
    (verify_evidence_run
      ⟨.json (.obj (.cons ("evidence".toList) (.str []) .nil)),
        ("tapp".toList), [], [], [], [], some ⟨200, ("e30.e30.s".toList)⟩⟩
      false).exitCode = 0 := by
  refine ⟨by decide, by decide⟩

/-- C3 (amended): the loader only checks presence of the `evidence` key
(`KeyError`), not non-emptiness: an empty-string value is accepted, its
length 0 is printed, and the run proceeds to the network call. -/
theorem C3_empty_evidence_accepted (inp : RunInput) (verbose : Bool)
    (kvs : JObj)
    (hev : inp.evidenceFile = .json (.obj kvs))
    (hlk : objLookup ("evidence".toList) kvs = some (.str [])) :
    (verify_evidence_run inp verbose).networkCalled = true ∧
    Msg.evidenceLen 0 ∈ (verify_evidence_run inp verbose).msgs := by
  unfold verify_evidence_run afterLoad
  rw [hev]
  simp at hlk
  rcases hrsp : inp.response with _ | r
  · simp [hlk, hrsp, evLen]
  · by_cases h200 : r.statusCode = 200 <;> simp [hlk, hrsp, h200, evLen]

/-- C3 witness: the amended theorem applied to the counterexample run. -/
theorem C3_empty_evidence_accepted_witness :
    (verify_evidence_run
      ⟨.json (.obj (.cons ("evidence".toList) (.str []) .nil)),
        ("tapp".toList), [], [], [], [], none⟩ false).networkCalled = true ∧
    Msg.evidenceLen 0 ∈ (verify_evidence_run
      ⟨.json (.obj (.cons ("evidence".toList) (.str []) .nil)),
        ("tapp".toList), [], [], [], [], none⟩ false).msgs :=
  C3_empty_evidence_accepted _ false _ rfl (by decide)

/-- C5: for every run that receives a non-200 response, the body is parsed
as JSON and printed structured (raw text fallback), the exit status is
non-zero (1), and neither `jwt_token.txt` nor `jwt_payload.json` is
written. -/
theorem C5_non200_fatal_no_artifacts (inp : RunInput) (verbose : Bool)
    (kvs : JObj) (ev : Json) (n : Nat) (r : Response)
    (hev : inp.evidenceFile = .json (.obj kvs))
    (hlk : objLookup ("evidence".toList) kvs = some ev)
    (hlen : evLen ev = some n)
    (hrsp : inp.response = some r) (h200 : ¬ r.statusCode = 200) :
    (verify_evidence_run inp verbose).exitCode = 1 ∧
    (verify_evidence_run inp verbose).jwtTokenFile = none ∧
    (verify_evidence_run inp verbose).jwtPayloadFile = none ∧
    Msg.verifyFailed ∈ (verify_evidence_run inp verbose).msgs ∧
    ((∃ ej, jsonParse r.text = some ej ∧
        Msg.errorResponseJson ej ∈ (verify_evidence_run inp verbose).msgs) ∨
      (jsonParse r.text = none ∧
        Msg.errorResponseRaw r.text ∈ (verify_evidence_run inp verbose).msgs)) := by
  unfold verify_evidence_run afterLoad
  rw [hev]
  simp at hlk
  rcases hp : jsonParse r.text with _ | ej
  · refine ⟨?_, ?_, ?_, ?_, Or.inr ⟨rfl, ?_⟩⟩ <;>
      simp [hlk, hlen, hrsp, h200, hp]
  · refine ⟨?_, ?_, ?_, ?_, Or.inl ⟨ej, rfl, ?_⟩⟩ <;>
      simp [hlk, hlen, hrsp, h200, hp]

/-- C5 witness: a 403 with a JSON error body yields exit 1, no artifacts,
and the structured error print. -/
theorem C5_non200_fatal_no_artifacts_witness :
    (verify_evidence_run
      ⟨.json (.obj (.cons ("evidence".toList) (.str ('A' :: [])) .nil)),
        ("tapp".toList), [], [], [], [],
        some ⟨403, ("\x7b\"error\": \"denied\"\x7d".toList)⟩⟩ false).exitCode = 1 ∧
    (verify_evidence_run
      ⟨.json (.obj (.cons ("evidence".toList) (.str ('A' :: [])) .nil)),
        ("tapp".toList), [], [], [], [],
        some ⟨403, ("\x7b\"error\": \"denied\"\x7d".toList)⟩⟩ false).jwtTokenFile = none ∧
    (verify_evidence_run
      ⟨.json (.obj (.cons ("evidence".toList) (.str ('A' :: [])) .nil)),
        ("tapp".toList), [], [], [], [],
        some ⟨403, ("\x7b\"error\": \"denied\"\x7d".toList)⟩⟩ false).jwtPayloadFile = none := by
  have h := C5_non200_fatal_no_artifacts
    ⟨.json (.obj (.cons ("evidence".toList) (.str ('A' :: [])) .nil)),
      ("tapp".toList), [], [], [], [],
      some ⟨403, ("\x7b\"error\": \"denied\"\x7d".toList)⟩⟩ false
    _ (.str ('A' :: [])) 1 ⟨403, ("\x7b\"error\": \"denied\"\x7d".toList)⟩
    rfl (by decide) (by decide) rfl (by decide)
  exact ⟨h.1, h.2.1, h.2.2.1⟩

/-- C6: with a missing evidence file, or an evidence file holding valid
JSON that lacks the `evidence` key, the run exits 1, writes no artifact,
and never attempts the POST; the diagnostic is class-specific
(file-not-found, missing-field, or the generic load failure for a
non-object top level whose subscript raises `TypeError`). -/
theorem C6_input_errors_no_network (inp : RunInput) (verbose : Bool)
    (h : inp.evidenceFile = .missing ∨
      ∃ j, inp.evidenceFile = .json j ∧
        ∀ kvs, j = .obj kvs → objLookup ("evidence".toList) kvs = none) :
    (verify_evidence_run inp verbose).exitCode = 1 ∧
    (verify_evidence_run inp verbose).networkCalled = false ∧
    (verify_evidence_run inp verbose).jwtTokenFile = none ∧
    (verify_evidence_run inp verbose).jwtPayloadFile = none ∧
    (Msg.fileNotFound ∈ (verify_evidence_run inp verbose).msgs ∨
      Msg.evidenceFieldNotFound ∈ (verify_evidence_run inp verbose).msgs ∨
      Msg.loadFailed ∈ (verify_evidence_run inp verbose).msgs) ∧
    (inp.evidenceFile = .missing →
      Msg.fileNotFound ∈ (verify_evidence_run inp verbose).msgs) ∧
    (∀ kvs, inp.evidenceFile = .json (.obj kvs) →
      Msg.evidenceFieldNotFound ∈ (verify_evidence_run inp verbose).msgs) := by
  unfold verify_evidence_run
  rcases h with hm | ⟨j, hj, hlac⟩
  · rw [hm]
    refine ⟨rfl, rfl, rfl, rfl, Or.inl (by simp), fun _ => by simp, ?_⟩
    intro kvs hcon
    exact absurd hcon (by simp)
  · rcases j with _ | b | n | s | xs | kvs
    · rw [hj]
      refine ⟨rfl, rfl, rfl, rfl, Or.inr (Or.inr (by simp)), ?_, ?_⟩
      · intro hcon; exact absurd hcon (by simp)
      · intro kvs hcon; exact absurd hcon (by simp)
    · rw [hj]
      refine ⟨rfl, rfl, rfl, rfl, Or.inr (Or.inr (by simp)), ?_, ?_⟩
      · intro hcon; exact absurd hcon (by simp)
      · intro kvs hcon; exact absurd hcon (by simp)
    · rw [hj]
      refine ⟨rfl, rfl, rfl, rfl, Or.inr (Or.inr (by simp)), ?_, ?_⟩
      · intro hcon; exact absurd hcon (by simp)
      · intro kvs hcon; exact absurd hcon (by simp)
    · rw [hj]
      refine ⟨rfl, rfl, rfl, rfl, Or.inr (Or.inr (by simp)), ?_, ?_⟩
      · intro hcon; exact absurd hcon (by simp)
      · intro kvs hcon; exact absurd hcon (by simp)
    · rw [hj]
      refine ⟨rfl, rfl, rfl, rfl, Or.inr (Or.inr (by simp)), ?_, ?_⟩
      · intro hcon; exact absurd hcon (by simp)
      · intro kvs hcon; exact absurd hcon (by simp)
    · have hnone := hlac kvs rfl
      rw [hj]
      simp only [hnone]
      refine ⟨by trivial, by trivial, by trivial, by trivial,
        Or.inr (Or.inl (by simp)), ?_, ?_⟩
      · intro hcon; exact absurd hcon (by simp)
      · intro kvs2 _; simp

/-- C6 witness: a missing evidence file exits 1 without a network call. -/
theorem C6_input_errors_no_network_witness :
    (verify_evidence_run ⟨.missing, ("tapp".toList), [], [], [], [], none⟩
      false).exitCode = 1 ∧
    (verify_evidence_run ⟨.missing, ("tapp".toList), [], [], [], [], none⟩
      false).networkCalled = false ∧
    Msg.fileNotFound ∈ (verify_evidence_run
      ⟨.missing, ("tapp".toList), [], [], [], [], none⟩ false).msgs := by
  have h := C6_input_errors_no_network
    ⟨.missing, ("tapp".toList), [], [], [], [], none⟩ false (Or.inl rfl)
  exact ⟨h.1, h.2.1, h.2.2.2.2.2.1 rfl⟩

/-- C7: the `AAInstanceInfo` header is present iff at least one identity
field is non-empty, and its value is the JSON serialization of exactly the
non-empty fields in the source's insertion order; with all four empty the
header is entirely omitted. -/
theorem C7_identity_header (i1 i2 i3 i4 : List Char) :
    (aaHeaderValue i1 i2 i3 i4 = none ↔ (i1 = [] ∧ i2 = [] ∧ i3 = [] ∧ i4 = [])) ∧
    ((i1 ≠ [] ∨ i2 ≠ [] ∨ i3 ≠ [] ∨ i4 ≠ []) →
      aaHeaderValue i1 i2 i3 i4 =
        some (dumpJson (.obj (objOfList (nonEmptyIdentityFieldsSpec i1 i2 i3 i4))))) := by
  by_cases h1 : i1 = [] <;> by_cases h2 : i2 = [] <;>
    by_cases h3 : i3 = [] <;> by_cases h4 : i4 = [] <;>
    simp [aaHeaderValue, buildAAInstanceInfo, nonEmptyIdentityFieldsSpec,
      objOfList, h1, h2, h3, h4]

/-- C7 witness: one non-empty field yields the serialized singleton
object; all-empty yields no header. -/
theorem C7_identity_header_witness :
    aaHeaderValue ("img-1".toList) [] [] [] =
      some (dumpJson (.obj (objOfList
        (nonEmptyIdentityFieldsSpec ("img-1".toList) [] [] [])))) ∧
    aaHeaderValue [] [] [] [] = none := by
  refine ⟨(C7_identity_header ("img-1".toList) [] [] []).2 (Or.inl (by decide)), ?_⟩
  exact (C7_identity_header [] [] [] []).1.mpr (by decide)

/-- When the fixed extraction path is absent, the walk of `extractCore`
raises before printing anything, and the exception class follows the
absence mode: a `KeyError` on exactly the missing key when a key is
missing from an object, a `TypeError`-class exception when an intermediate
value is not an object. -/
theorem extractCore_status (p : Json) (v : Bool)
    (hpath : hasEarStatusPath p = false) :
    earStatusPathStatus p ≠ .present ∧
    (∀ k, earStatusPathStatus p = .missingKey k →
        extractCore p v = ([], some (.keyError k))) ∧
    (earStatusPathStatus p = .nonObject →
        extractCore p v = ([], some .typeErr)) := by
  rcases p with _ | b | n | s | xs | pk
  · exact ⟨by simp [earStatusPathStatus], fun k hk => by
      simp [earStatusPathStatus] at hk, fun _ => rfl⟩
  · exact ⟨by simp [earStatusPathStatus], fun k hk => by
      simp [earStatusPathStatus] at hk, fun _ => rfl⟩
  · exact ⟨by simp [earStatusPathStatus], fun k hk => by
      simp [earStatusPathStatus] at hk, fun _ => rfl⟩
  · exact ⟨by simp [earStatusPathStatus], fun k hk => by
      simp [earStatusPathStatus] at hk, fun _ => rfl⟩
  · exact ⟨by simp [earStatusPathStatus], fun k hk => by
      simp [earStatusPathStatus] at hk, fun _ => rfl⟩
  · rcases hlk : objLookup ("submods".toList) pk with _ | sv
    · simp at hlk
      refine ⟨by simp [earStatusPathStatus, hlk], ?_, ?_⟩
      · intro k hk
        simp [earStatusPathStatus, hlk] at hk
        subst hk
        simp [extractCore, hlk]
      · intro hk
        simp [earStatusPathStatus, hlk] at hk
    · rcases sv with _ | b | n | s | xs | sk
      · simp at hlk
        exact ⟨by simp [earStatusPathStatus, hlk], fun k hk => by
          simp [earStatusPathStatus, hlk] at hk,
          fun _ => by simp [extractCore, hlk]⟩
      · simp at hlk
        exact ⟨by simp [earStatusPathStatus, hlk], fun k hk => by
          simp [earStatusPathStatus, hlk] at hk,
          fun _ => by simp [extractCore, hlk]⟩
      · simp at hlk
        exact ⟨by simp [earStatusPathStatus, hlk], fun k hk => by
          simp [earStatusPathStatus, hlk] at hk,
          fun _ => by simp [extractCore, hlk]⟩
      · simp at hlk
        exact ⟨by simp [earStatusPathStatus, hlk], fun k hk => by
          simp [earStatusPathStatus, hlk] at hk,
          fun _ => by simp [extractCore, hlk]⟩
      · simp at hlk
        exact ⟨by simp [earStatusPathStatus, hlk], fun k hk => by
          simp [earStatusPathStatus, hlk] at hk,
          fun _ => by simp [extractCore, hlk]⟩
      · rcases hck : objLookup ("cpu0".toList) sk with _ | cv
        · simp at hlk hck
          refine ⟨by simp [earStatusPathStatus, hlk, hck], ?_, ?_⟩
          · intro k hk
            simp [earStatusPathStatus, hlk, hck] at hk
            subst hk
            simp [extractCore, hlk, hck]
          · intro hk
            simp [earStatusPathStatus, hlk, hck] at hk
        · rcases cv with _ | b | n | s | xs | ck
          · simp at hlk hck
            exact ⟨by simp [earStatusPathStatus, hlk, hck], fun k hk => by
              simp [earStatusPathStatus, hlk, hck] at hk,
              fun _ => by simp [extractCore, hlk, hck]⟩
          · simp at hlk hck
            exact ⟨by simp [earStatusPathStatus, hlk, hck], fun k hk => by
              simp [earStatusPathStatus, hlk, hck] at hk,
              fun _ => by simp [extractCore, hlk, hck]⟩
          · simp at hlk hck
            exact ⟨by simp [earStatusPathStatus, hlk, hck], fun k hk => by
              simp [earStatusPathStatus, hlk, hck] at hk,
              fun _ => by simp [extractCore, hlk, hck]⟩
          · simp at hlk hck
            exact ⟨by simp [earStatusPathStatus, hlk, hck], fun k hk => by
              simp [earStatusPathStatus, hlk, hck] at hk,
              fun _ => by simp [extractCore, hlk, hck]⟩
          · simp at hlk hck
            exact ⟨by simp [earStatusPathStatus, hlk, hck], fun k hk => by
              simp [earStatusPathStatus, hlk, hck] at hk,
              fun _ => by simp [extractCore, hlk, hck]⟩
          · rcases hes : objLookup ("ear.status".toList) ck with _ | ev
            · simp at hlk hck hes
              refine ⟨by simp [earStatusPathStatus, hlk, hck, hes], ?_, ?_⟩
              · intro k hk
                simp [earStatusPathStatus, hlk, hck, hes] at hk
                subst hk
                simp [extractCore, extractCpu0, hlk, hck, hes]
              · intro hk
                simp [earStatusPathStatus, hlk, hck, hes] at hk
            · exfalso
              simp at hlk hck hes
              simp [hasEarStatusPath, hlk, hck, hes] at hpath

/-- C8 counterexample: a three-segment token whose payload decodes to
`\x7b"submods": 5\x7d` — valid JSON lacking the `submods.cpu0.ear.status`
path.  The payload file is written and the run does not crash, but the
diagnostic is the generic extraction error (a `TypeError` from subscripting
the number), not the claimed missing-field line. -/
theorem C8_counterexample :
    hasEarStatusPath (.obj (.cons ("submods".toList) (.num 5) .nil)) = false ∧
    decodeSegment (b64urlEncode ((dumpJson
        (.obj (.cons ("submods".toList) (.num 5) .nil))).map Char.toNat)) =
      some (.obj (.cons ("submods".toList) (.num 5) .nil)) ∧
    (decode_jwt
      (b64urlEncode ((dumpJson
          (.obj (.cons ("submods".toList) (.num 5) .nil))).map Char.toNat) ++
        '.' :: b64urlEncode ((dumpJson
          (.obj (.cons ("submods".toList) (.num 5) .nil))).map Char.toNat) ++
        '.' :: 's' :: []) false).msgs =
      [.verificationResultHeader, .extractError] ∧
    (decode_jwt
      (b64urlEncode ((dumpJson
          (.obj (.cons ("submods".toList) (.num 5) .nil))).map Char.toNat) ++
        '.' :: b64urlEncode ((dumpJson
          (.obj (.cons ("submods".toList) (.num 5) .nil))).map Char.toNat) ++
        '.' :: 's' :: []) false).payloadFile =
      some (.obj (.cons ("submods".toList) (.num 5) .nil)) ∧
    ¬ (∃ k, Msg.missingFields k ∈ (decode_jwt
      (b64urlEncode ((dumpJson
          (.obj (.cons ("submods".toList) (.num 5) .nil))).map Char.toNat) ++
        '.' :: b64urlEncode ((dumpJson
          (.obj (.cons ("submods".toList) (.num 5) .nil))).map Char.toNat) ++
        '.' :: 's' :: []) false).msgs) := by
  refine ⟨by decide, by decide, by decide, by decide, ?_⟩
  intro ⟨k, hk⟩
  rw [show (decode_jwt
      (b64urlEncode ((dumpJson
          (.obj (.cons ("submods".toList) (.num 5) .nil))).map Char.toNat) ++
        '.' :: b64urlEncode ((dumpJson
          (.obj (.cons ("submods".toList) (.num 5) .nil))).map Char.toNat) ++
        '.' :: 's' :: []) false).msgs =
      [.verificationResultHeader, .extractError] from by decide] at hk
  simp only [List.mem_cons, List.not_mem_nil, or_false] at hk
  rcases hk with hk | hk <;> exact Msg.noConfusion hk

/-- C8 (amended): for every three-segment token whose payload decodes to
valid JSON lacking the `submods.cpu0.ear.status` path, the decoded-payload
file is still written and the condition is recovered locally (no crash);
the diagnostic follows the absence mode: the missing-field line, naming the
missing key, when the absence is a missing key on an object, and the
generic extraction-error line when an intermediate value is not an
object. -/
theorem C8_path_missing_nonfatal (tok : List Char) (v : Bool)
    (p0 p1 p2 : List Char) (hdr payload : Json)
    (hs : splitDots tok = [p0, p1, p2])
    (h0 : decodeSegment p0 = some hdr)
    (h1 : decodeSegment p1 = some payload)
    (hpath : hasEarStatusPath payload = false) :
    (decode_jwt tok v).payloadFile = some payload ∧
    earStatusPathStatus payload ≠ .present ∧
    (∀ k, earStatusPathStatus payload = .missingKey k →
        Msg.missingFields k ∈ (decode_jwt tok v).msgs) ∧
    (earStatusPathStatus payload = .nonObject →
        Msg.extractError ∈ (decode_jwt tok v).msgs) := by
  obtain ⟨hpres, hkey, htype⟩ := extractCore_status payload v hpath
  unfold decode_jwt
  rw [hs]
  simp only [h0, h1]
  refine ⟨by simp, hpres, ?_, ?_⟩
  · intro k hk
    simp [extractInfo, hkey k hk]
  · intro hk
    simp [extractInfo, htype hk]

/-- C8 witness: a token whose payload is `\x7b\x7d`, whose absence mode is
the key `submods` missing from the top-level object: the payload file is
written and the missing-field line for `submods` is printed. -/
theorem C8_path_missing_nonfatal_witness :
    (decode_jwt ("e30.e30.s".toList) false).payloadFile = some (.obj .nil) ∧
    earStatusPathStatus (.obj .nil) = .missingKey ("submods".toList) ∧
    Msg.missingFields ("submods".toList) ∈
      (decode_jwt ("e30.e30.s".toList) false).msgs :=
  have h := C8_path_missing_nonfatal ("e30.e30.s".toList) false
    ("e30".toList) ("e30".toList) ('s' :: []) (.obj .nil) (.obj .nil)
    (by decide) (by decide) (by decide) (by decide)
  ⟨h.1, by decide, h.2.2.1 ("submods".toList) (by decide)⟩
